import Mathlib

/-!
Verification of the couchbaselabs/breakpad source-line resolver core
(basic_source_line_resolver.cc, equals.h, module serializer, disk cache glue).

The embedding models:
 - the data model (Line, Function, PublicSymbol, StackFrameInfo, Module),
 - the interval maps (RangeMap, AddressMap, ContainedRangeMap) — their
   implementation files are not part of the given sources, so these are
   modelled from the specification document (each such definition says so),
 - the sym-file parser (Tokenize, ParseFile, ParseFunction, ParseLine,
   ParsePublicSymbol, ParseStackInfo, LoadMap),
 - the binary module serializer (Serialize / Deserialize) over a stream of
   primitive write operations (u32 / u64 / padded byte block).  Within one
   primitive the byte layout is fixed-width and invertible, so a stream of
   primitives is a faithful abstraction of the byte stream for everything the
   code observes; the string codec keeps the byte-level NUL-scan quirk.
 - the resolver (module table, LoadModule, HasModule).

Machine integers are Nat with explicit reduction mod 2^32 / 2^64 exactly where
the C++ performs a narrowing conversion or a wrapping add/sub.
-/

namespace google_breakpad

/-- 2^32, the modulus of u_int32_t arithmetic. -/
def U32MOD : Nat := 4294967296

/-- 2^64, the modulus of u_int64_t (MemAddr) arithmetic. -/
def U64MOD : Nat := 18446744073709551616

/-- u64 wrapping addition, as C++ computes `a + b` on u_int64_t. -/
def u64add (a b : Nat) : Nat := (a + b) % U64MOD

/-- u64 wrapping subtraction `a - b` on u_int64_t (inputs reduced first). -/
def u64sub (a b : Nat) : Nat := (a % U64MOD + (U64MOD - b % U64MOD)) % U64MOD

/-- The NUL character, used by the serializer's padded-string codec. -/
def nulChar : Char := '\x00'

/-- True when a string contains no NUL byte.  Every string a parsed module can
hold has this property, because parser tokens come from C strings. -/
def strOK (s : String) : Bool := s.data.all (fun c => !(c == nulChar))

/-! ## Numeric token parsing (libc strtoull/strtoul/strtol/atoi models)

`strtoull(tok, NULL, 16)` parses leading hexadecimal digits and saturates at
ULLONG_MAX on overflow.  Tokens produced by the tokenizer carry no leading
whitespace; sign prefixes and the optional "0x" radix prefix are not modelled
(no claim depends on them; the sym format uses bare hex digits). -/

/-- Value of one hexadecimal digit, 16 for a non-digit. -/
def hexDigitVal (c : Char) : Nat :=
  if '0' ≤ c ∧ c ≤ '9' then c.toNat - '0'.toNat
  else if 'a' ≤ c ∧ c ≤ 'f' then c.toNat - 'a'.toNat + 10
  else if 'A' ≤ c ∧ c ≤ 'F' then c.toNat - 'A'.toNat + 10
  else 16

/-- True for a hexadecimal digit. -/
def isHexDigitC (c : Char) : Bool := hexDigitVal c < 16

/-- strtoull base 16: value of the leading hex digits, saturating at
ULLONG_MAX = 2^64 - 1. -/
def hexVal (cs : List Char) : Nat :=
  min ((cs.takeWhile isHexDigitC).foldl (fun a c => a * 16 + hexDigitVal c) 0)
      (U64MOD - 1)

/-- True for a decimal digit. -/
def isDecDigitC (c : Char) : Bool := '0' ≤ c ∧ c ≤ '9'

/-- Value of the leading decimal digits of a token. -/
def decDigitsVal (cs : List Char) : Nat :=
  (cs.takeWhile isDecDigitC).foldl (fun a c => a * 10 + (c.toNat - '0'.toNat)) 0

/-- atoi: optional sign then decimal digits.  Overflow is undefined behaviour
in C and is modelled as the exact value. -/
def atoiVal (cs : List Char) : Int :=
  match cs with
  | '-' :: rest => -(decDigitsVal rest : Int)
  | '+' :: rest => (decDigitsVal rest : Int)
  | _ => (decDigitsVal cs : Int)

/-- Conversion of an int value to u_int32_t (reduction mod 2^32). -/
def intToU32 (i : Int) : Nat := (i % (U32MOD : Int)).toNat

/-! ## Tokenize

Model of `BasicSourceLineResolver::Module::Tokenize` (part_000:856-881).
strtok_r splits on the delimiter set, skipping runs of delimiters; the final
token, fetched only when the main loop yielded exactly `max_tokens - 1`
tokens, is the raw remainder split only on CR/LF (so it may contain spaces).
-/

/-- Delimiters of the main tokenizing loop: space, CR, LF. -/
def isSpDelim (c : Char) : Bool := c == ' ' || c == '\r' || c == '\n'

/-- Delimiters of the final remainder fetch: CR, LF. -/
def isCrlf (c : Char) : Bool := c == '\r' || c == '\n'

/-- One strtok_r step on the delimiter set `d`: skip leading delimiters, take
the token, consume the single delimiter terminating it.  none when no token
remains. -/
def strtok1 (d : Char → Bool) (cs : List Char) : Option (List Char × List Char) :=
  let cs' := cs.dropWhile d
  match cs' with
  | [] => none
  | _ =>
    let tok := cs'.takeWhile (fun c => !(d c))
    some (tok, (cs'.drop tok.length).tail)

/-- The main loop of Tokenize: collect up to `k` space-delimited tokens.
Returns the tokens, the unconsumed rest, and whether all `k` were found. -/
def tokMain : Nat → List Char → List (List Char) × List Char × Bool
  | 0, cs => ([], cs, true)
  | k + 1, cs =>
    match strtok1 isSpDelim cs with
    | none => ([], cs, false)
    | some (t, rest) =>
      let (ts, rest', full) := tokMain k rest
      (t :: ts, rest', full)

/-- Tokenize the line into at most `maxTokens` tokens: `maxTokens - 1`
space-split tokens, then (only if all of those were present) the raw remainder
stripped of CR/LF as the final token. -/
def tokenizeCS (cs : List Char) (maxTokens : Nat) : List (List Char) :=
  let (ts, rest, full) := tokMain (maxTokens - 1) cs
  if full then
    match strtok1 isCrlf rest with
    | some (t, _) => ts ++ [t]
    | none => ts
  else ts

/-! ## The serializer's primitive stream

ModuleSerializer (part_000:213-583) writes fixed-width u32 / u64 values and
padded byte blocks to a binary stream.  The stream is modelled as a list of
those primitives; each has a fixed invertible byte layout, and
Serialize/Deserialize always agree on the width of the next read, so this is
an exact model of what the code observes.  The padded-string codec keeps the
byte-level behaviour: the writer stores `size + extra` (extra in 1..4) and
pads with NULs; the reader recovers the text by scanning to the first NUL. -/

/-- One primitive stream element: a u32 write, a u64 write, or a raw padded
byte block (the character data of a non-empty string). -/
inductive Tok where
  | u32 (n : Nat)
  | u64 (n : Nat)
  | bytes (bs : List Char)
deriving DecidableEq, Repr

/-- Read one u32 from the stream (ModuleSerializer::Read(u_int32_t&)). -/
def readU32 : List Tok → Option (Nat × List Tok)
  | Tok.u32 n :: r => some (n, r)
  | _ => none

/-- Read one u64 from the stream (ModuleSerializer::Read(u_int64_t&)). -/
def readU64 : List Tok → Option (Nat × List Tok)
  | Tok.u64 n :: r => some (n, r)
  | _ => none

/-- Read one raw byte block from the stream. -/
def readBytes : List Tok → Option (List Char × List Tok)
  | Tok.bytes bs :: r => some (bs, r)
  | _ => none

/-- ModuleSerializer::Write(const string&): an empty string is written as the
single u32 0; otherwise the length is padded up to the next multiple of four
(always at least one pad byte) and the NUL-padded character data follows. -/
def encStr (s : String) : List Tok :=
  match s.data with
  | [] => [Tok.u32 0]
  | cs =>
    let extra := 4 - cs.length % 4
    [Tok.u32 (cs.length + extra), Tok.bytes (cs ++ List.replicate extra nulChar)]

/-- ModuleSerializer::Read(string&): read the padded length; zero means the
string stays empty; otherwise read the block and take the bytes up to the
first NUL (the C-string assignment `data = &string_bytes[0]`). -/
def decStr (s : List Tok) : Option (String × List Tok) := do
  let (len, s) ← readU32 s
  if len == 0 then
    some ("", s)
  else do
    let (bs, s) ← readBytes s
    some (String.mk (bs.takeWhile (fun c => !(c == nulChar))), s)

/-! ## Core data model (part_000:59-128) -/

/-- BasicSourceLineResolver::Line (part_000:59-77). -/
structure Line where
  address : Nat
  size : Nat
  source_file_id : Nat
  line : Nat
deriving DecidableEq, Repr

/-- Line::operator== (part_000:66-71). -/
def lineEq (a b : Line) : Bool :=
  a.address == b.address && a.size == b.size &&
  a.source_file_id == b.source_file_id && a.line == b.line

/-- Modelled from the spec: stack_frame_info.h is not among the given
sources.  Fields and their order are pinned by the serializer
(part_000:529-555) and §3 of the spec; `valid` is the bitfield of
meaningful fields. -/
structure StackFrameInfo where
  valid : Nat
  prolog_size : Nat
  epilog_size : Nat
  parameter_size : Nat
  saved_register_size : Nat
  local_size : Nat
  max_stack_size : Nat
  allocates_base_pointer : Bool
  program_string : String
deriving DecidableEq, Repr

/-- Modelled from the spec: StackFrameInfo valid-mask bit for
parameter_size (§6 of the spec; value as in the breakpad enum). -/
def VALID_PARAMETER_SIZE : Nat := 1

/-- Modelled from the spec: the all-bits valid mask a full STACK record
carries ("Additional bits accompany fields set from a STACK record"),
as a u32. -/
def VALID_ALL : Nat := U32MOD - 1

/-- The default-constructed StackFrameInfo: nothing valid, all sizes zero. -/
def StackFrameInfo.empty : StackFrameInfo :=
  ⟨0, 0, 0, 0, 0, 0, 0, false, ""⟩

/-- Modelled from the spec: structural equality of two StackFrameInfo values
(names, sizes, program strings, allocates_base_pointer, valid masks — §4.5). -/
def sfiEq (a b : StackFrameInfo) : Bool :=
  a.valid == b.valid && a.prolog_size == b.prolog_size &&
  a.epilog_size == b.epilog_size && a.parameter_size == b.parameter_size &&
  a.saved_register_size == b.saved_register_size &&
  a.local_size == b.local_size && a.max_stack_size == b.max_stack_size &&
  a.allocates_base_pointer == b.allocates_base_pointer &&
  a.program_string == b.program_string

/-- BasicSourceLineResolver::PublicSymbol (part_000:107-128). -/
structure PublicSymbol where
  name : String
  address : Nat
  parameter_size : Nat
deriving DecidableEq, Repr

/-- PublicSymbol::operator== (part_000:115-119): name, address and
parameter_size. -/
def pubEq (a b : PublicSymbol) : Bool :=
  a.name == b.name && a.address == b.address &&
  a.parameter_size == b.parameter_size

/-! ## RangeMap

Modelled from the spec (§4.1): range_map-inl.h is not among the given
sources.  A RangeMap stores disjoint sized intervals; the underlying ordered
map is keyed by the interval's high endpoint, represented here as the list of
(base, size, value) triples in increasing base order (equivalently increasing
high order, since intervals are disjoint). -/
structure RangeMap (V : Type) where
  entries : List (Nat × Nat × V)
deriving DecidableEq, Repr

/-- The empty RangeMap. -/
def RangeMap.empty {V : Type} : RangeMap V := ⟨[]⟩

/-- Insert an entry keeping the list ordered by base address. -/
def rmInsert {V : Type} : List (Nat × Nat × V) → Nat → Nat → V → List (Nat × Nat × V)
  | [], base, size, v => [(base, size, v)]
  | e :: rest, base, size, v =>
    if base < e.1 then (base, size, v) :: e :: rest
    else e :: rmInsert rest base size v

/-- Modelled from the spec: StoreRange fails if size is zero, if base + size
overflows u64, or if the new interval intersects a stored interval; on
success the interval [base, base+size) maps to the value. -/
def RangeMap.StoreRange {V : Type} (m : RangeMap V) (base size : Nat) (v : V) :
    Bool × RangeMap V :=
  if size == 0 || decide (U64MOD ≤ base + size) ||
     m.entries.any (fun e => base < e.1 + e.2.1 && e.1 < base + size) then
    (false, m)
  else
    (true, ⟨rmInsert m.entries base size v⟩)

/-- Modelled from the spec: RetrieveRange returns the unique stored interval
containing the address, with its base and size. -/
def RangeMap.RetrieveRange {V : Type} (m : RangeMap V) (addr : Nat) :
    Option (V × Nat × Nat) :=
  match m.entries.find? (fun e => e.1 ≤ addr && addr < e.1 + e.2.1) with
  | some e => some (e.2.2, e.1, e.2.1)
  | none => none

/-- Modelled from the spec: RetrieveNearestRange returns the stored interval
with the greatest base at or below the address, whether or not the address
lies inside it.  The fold picks the last qualifying entry of the base-ordered
list, i.e. the greatest such base. -/
def RangeMap.RetrieveNearestRange {V : Type} (m : RangeMap V) (addr : Nat) :
    Option (V × Nat × Nat) :=
  m.entries.foldl
    (fun acc e => if e.1 ≤ addr then some (e.2.2, e.1, e.2.1) else acc) none

/-- Replace the value stored at the given base, keeping base and size.  This
models C++ pointer sharing: the parser's current function is the same object
as the one stored in the functions map, so lines appended to it are visible
through the map. -/
def RangeMap.updateVal {V : Type} (m : RangeMap V) (base : Nat) (v : V) :
    RangeMap V :=
  ⟨m.entries.map (fun e => if e.1 == base then (e.1, e.2.1, v) else e)⟩

/-- Modelled from the spec: RangeMap::Equals is pairwise structural equality
over (base, size, value), values compared by the supplied equality (the
Equals overload set of equals.h). -/
def RangeMap.EqualsWith {V : Type} (veq : V → V → Bool)
    (a b : RangeMap V) : Bool :=
  a.entries.length == b.entries.length &&
  (a.entries.zip b.entries).all
    (fun p => p.1.1 == p.2.1 && p.1.2.1 == p.2.2.1 && veq p.1.2.2 p.2.2.2)

/-- BasicSourceLineResolver::Function (part_000:79-95). -/
structure Function where
  name : String
  address : Nat
  size : Nat
  parameter_size : Nat
  lines : RangeMap Line
deriving DecidableEq, Repr

/-- The free function Equals(Function, Function) (part_000:98-105): name,
address, size and the line set — parameter_size is not compared. -/
def funcEquals (a b : Function) : Bool :=
  a.name == b.name && a.address == b.address && a.size == b.size &&
  RangeMap.EqualsWith lineEq a.lines b.lines

/-! ## AddressMap

Modelled from the spec (§4.2): address_map-inl.h is not among the given
sources.  An ordered map from address to value; retrieval is nearest-below. -/
structure AddressMap (V : Type) where
  entries : List (Nat × V)
deriving DecidableEq, Repr

/-- The empty AddressMap. -/
def AddressMap.empty {V : Type} : AddressMap V := ⟨[]⟩

/-- Insert keeping the list ordered by address; the caller has already
checked the key is absent. -/
def amInsert {V : Type} : List (Nat × V) → Nat → V → List (Nat × V)
  | [], k, v => [(k, v)]
  | e :: rest, k, v =>
    if k < e.1 then (k, v) :: e :: rest else e :: amInsert rest k v

/-- Modelled from the spec: Store fails on a duplicate key. -/
def AddressMap.Store {V : Type} (m : AddressMap V) (k : Nat) (v : V) :
    Bool × AddressMap V :=
  if m.entries.any (fun e => e.1 == k) then (false, m)
  else (true, ⟨amInsert m.entries k v⟩)

/-- Modelled from the spec: Retrieve returns the entry with the greatest key
at or below the address, together with that key. -/
def AddressMap.Retrieve {V : Type} (m : AddressMap V) (addr : Nat) :
    Option (V × Nat) :=
  m.entries.foldl (fun acc e => if e.1 ≤ addr then some (e.2, e.1) else acc) none

/-- Modelled from the spec: AddressMap::Equals is pairwise structural
equality over (address, value) in key order. -/
def AddressMap.EqualsWith {V : Type} (veq : V → V → Bool)
    (a b : AddressMap V) : Bool :=
  a.entries.length == b.entries.length &&
  (a.entries.zip b.entries).all (fun p => p.1.1 == p.2.1 && veq p.1.2 p.2.2)

/-! ## ContainedRangeMap

Modelled from the spec (§4.3): contained_range_map-inl.h is not among the
given sources.  A recursive interval tree: each node carries its base, an
optional entry (the root sentinel has none), and an optional child map keyed
by the child's high endpoint (the distinction between no child map and an
empty one is observable through the serializer).  Insertion policy: a new
range that fits strictly inside a child recurses into it; any other overlap
is rejected (the source's TODO at part_000:1019-1037 documents the reject
behaviour for conflicting STACK ranges). -/
mutual
inductive ContainedRangeMap (V : Type) : Type where
  | node (base : Nat) (entry : Option V) (children : Option (CRMChildren V))
inductive CRMChildren (V : Type) : Type where
  | nil
  | cons (key : Nat) (child : ContainedRangeMap V) (rest : CRMChildren V)
end

/-- The base address of a ContainedRangeMap node. -/
def crmBase {V : Type} : ContainedRangeMap V → Nat
  | .node b _ _ => b

/-- The default-constructed ContainedRangeMap: the root sentinel. -/
def ContainedRangeMap.empty {V : Type} : ContainedRangeMap V :=
  .node 0 none none

/-- Number of children in a child map. -/
def crmKidsLen {V : Type} : CRMChildren V → Nat
  | .nil => 0
  | .cons _ _ rest => crmKidsLen rest + 1

mutual
/-- Modelled from the spec: RetrieveRange descends from the node choosing
the child whose interval contains the address and returns the deepest such
node's entry; with no containing child it returns the current node's entry
(none at the root sentinel). -/
def ContainedRangeMap.RetrieveRange {V : Type} :
    ContainedRangeMap V → Nat → Option V
  | .node _ entry children, addr =>
    match children with
    | none => entry
    | some kids =>
      match CRMChildren.retrieveKids kids addr with
      | some v => some v
      | none => entry
/-- Find the child whose interval [child.base, key] contains the address and
return its subtree's retrieval result. -/
def CRMChildren.retrieveKids {V : Type} : CRMChildren V → Nat → Option V
  | .nil, _ => none
  | .cons key c rest, addr =>
    if crmBase c ≤ addr && addr ≤ key then ContainedRangeMap.RetrieveRange c addr
    else CRMChildren.retrieveKids rest addr
end

mutual
/-- Modelled from the spec: insert the closed interval [b, h] at the deepest
level where it fits; a range strictly inside a child recurses into that
child; any other overlap with a sibling is rejected (none). -/
def crmStoreIv {V : Type} :
    ContainedRangeMap V → Nat → Nat → V → Option (ContainedRangeMap V)
  | .node nb ne children, b, h, v =>
    match children with
    | none => some (.node nb ne (some (.cons h (.node b (some v) none) .nil)))
    | some kids =>
      match crmStoreKids kids b h v with
      | some kids' => some (.node nb ne (some kids'))
      | none => none
/-- Walk the key-ordered sibling list inserting [b, h]. -/
def crmStoreKids {V : Type} :
    CRMChildren V → Nat → Nat → V → Option (CRMChildren V)
  | .nil, b, h, v => some (.cons h (.node b (some v) none) .nil)
  | .cons key c rest, b, h, v =>
    if h < crmBase c then
      some (.cons h (.node b (some v) none) (.cons key c rest))
    else if key < b then
      match crmStoreKids rest b h v with
      | some rest' => some (.cons key c rest')
      | none => none
    else if crmBase c ≤ b && h ≤ key && (decide (crmBase c < b) || decide (h < key)) then
      match crmStoreIv c b h v with
      | some c' => some (.cons key c' rest)
      | none => none
    else none
end

/-- Modelled from the spec: StoreRange rejects a zero-sized range, otherwise
inserts [base, base+size-1] (the high endpoint computed in u64 as the C++
does).  The failure result leaves the tree unchanged. -/
def ContainedRangeMap.StoreRange {V : Type} (t : ContainedRangeMap V)
    (base size : Nat) (v : V) : Bool × ContainedRangeMap V :=
  if size == 0 then (false, t)
  else
    match crmStoreIv t base ((base + size - 1) % U64MOD) v with
    | some t' => (true, t')
    | none => (false, t)

/-- Equals on linked_ptr contents (equals.h:77-85): both present compares
the pointees, otherwise the raw pointers (equal only when both are null). -/
def optEqW {V : Type} (veq : V → V → Bool) : Option V → Option V → Bool
  | none, none => true
  | some a, some b => veq a b
  | _, _ => false

mutual
/-- Modelled from the spec: ContainedRangeMap::Equals is recursive
structural equality: base, entry (linked_ptr semantics) and the child maps
pairwise in key order. -/
def crmEqW {V : Type} (veq : V → V → Bool) :
    ContainedRangeMap V → ContainedRangeMap V → Bool
  | .node b1 e1 c1, .node b2 e2 c2 =>
    b1 == b2 && optEqW veq e1 e2 &&
    (match c1, c2 with
     | none, none => true
     | some k1, some k2 => crmKidsEqW veq k1 k2
     | _, _ => false)
/-- Pairwise equality of two child maps. -/
def crmKidsEqW {V : Type} (veq : V → V → Bool) :
    CRMChildren V → CRMChildren V → Bool
  | .nil, .nil => true
  | .cons k1 c1 r1, .cons k2 c2 r2 =>
    k1 == k2 && crmEqW veq c1 c2 && crmKidsEqW veq r1 r2
  | _, _ => false
end

mutual
/-- All entries of the tree satisfy the predicate. -/
def crmAllB {V : Type} (p : V → Bool) : ContainedRangeMap V → Bool
  | .node _ entry children =>
    (match entry with | none => true | some v => p v) &&
    (match children with | none => true | some kids => crmKidsAllB p kids)
/-- All entries under the child list satisfy the predicate. -/
def crmKidsAllB {V : Type} (p : V → Bool) : CRMChildren V → Bool
  | .nil => true
  | .cons _ c rest => crmAllB p c && crmKidsAllB p rest
end

/-! ## Module (part_000:130-210) -/

/-- The five stack_info_ slots, indexed by StackInfoTypes
(part_000:159-167): FPO = 0, TRAP = 1, TSS = 2, STANDARD = 3,
FRAME_DATA = 4. -/
structure StackInfoArray where
  fpo : ContainedRangeMap StackFrameInfo
  trap : ContainedRangeMap StackFrameInfo
  tss : ContainedRangeMap StackFrameInfo
  standard : ContainedRangeMap StackFrameInfo
  frame_data : ContainedRangeMap StackFrameInfo

/-- All slots empty. -/
def StackInfoArray.empty : StackInfoArray :=
  ⟨ContainedRangeMap.empty, ContainedRangeMap.empty, ContainedRangeMap.empty,
   ContainedRangeMap.empty, ContainedRangeMap.empty⟩

/-- Slot selection `stack_info_[i]`. -/
def StackInfoArray.get (a : StackInfoArray) : Nat → ContainedRangeMap StackFrameInfo
  | 0 => a.fpo
  | 1 => a.trap
  | 2 => a.tss
  | 3 => a.standard
  | _ => a.frame_data

/-- Slot update `stack_info_[i] = t` for i in 0..4. -/
def StackInfoArray.set (a : StackInfoArray) (i : Nat)
    (t : ContainedRangeMap StackFrameInfo) : StackInfoArray :=
  match i with
  | 0 => { a with fpo := t }
  | 1 => { a with trap := t }
  | 2 => { a with tss := t }
  | 3 => { a with standard := t }
  | 4 => { a with frame_data := t }
  | _ + 5 => a

/-- std::map insert of a FILE record: keeps the map key-ordered and does not
overwrite an existing id (map::insert ignores duplicate keys). -/
def filesInsert : List (Nat × String) → Nat → String → List (Nat × String)
  | [], k, v => [(k, v)]
  | e :: rest, k, v =>
    if k < e.1 then (k, v) :: e :: rest
    else if k == e.1 then e :: rest
    else e :: filesInsert rest k v

/-- files_.find: the path registered for a file id, if any. -/
def filesFind (fs : List (Nat × String)) (k : Nat) : Option String :=
  match fs.find? (fun e => e.1 == k) with
  | some e => some e.2
  | none => none

/-- Equals on the file map (equals.h:89-131): sizes equal and every entry of
the first found in the second with an equal value. -/
def filesEquals (a b : List (Nat × String)) : Bool :=
  a.length == b.length &&
  a.all (fun kv =>
    match filesFind b kv.1 with
    | some v => v == kv.2
    | none => false)

/-- BasicSourceLineResolver::Module: one loaded symbol module
(part_000:130-210). -/
structure Module where
  name_ : String
  files_ : List (Nat × String)
  functions_ : RangeMap Function
  public_symbols_ : AddressMap PublicSymbol
  stack_info_ : StackInfoArray

/-- Module(name): the freshly constructed empty module. -/
def Module.empty (name : String) : Module :=
  ⟨name, [], RangeMap.empty, AddressMap.empty, StackInfoArray.empty⟩

/-- Module::Equals (part_000:838-853): files, functions, public symbols and
all five stack_info slots; the module name is not compared. -/
def Module.Equals (m o : Module) : Bool :=
  filesEquals m.files_ o.files_ &&
  RangeMap.EqualsWith funcEquals m.functions_ o.functions_ &&
  AddressMap.EqualsWith pubEq m.public_symbols_ o.public_symbols_ &&
  crmEqW sfiEq m.stack_info_.fpo o.stack_info_.fpo &&
  crmEqW sfiEq m.stack_info_.trap o.stack_info_.trap &&
  crmEqW sfiEq m.stack_info_.tss o.stack_info_.tss &&
  crmEqW sfiEq m.stack_info_.standard o.stack_info_.standard &&
  crmEqW sfiEq m.stack_info_.frame_data o.stack_info_.frame_data

/-! ## LookupAddress (part_000:754-836) -/

/-- google_breakpad::StackFrame, restricted to the fields LookupAddress
reads (instruction, module base address) and writes. -/
structure StackFrame where
  instruction : Nat
  module_base : Nat
  function_name : String
  function_base : Nat
  source_file_name : String
  source_line : Nat
  source_line_base : Nat
deriving DecidableEq, Repr

/-- The function-containment test of LookupAddress (part_000:797):
`address >= function_base && address < function_base + function_size`, the
sum computed in u64. -/
def insideFunction (address fbase fsize : Nat) : Bool :=
  decide (fbase ≤ address) && decide (address < u64add fbase fsize)

/-- The public-symbol guard of LookupAddress (part_000:815):
`!func.get() || public_address > function_base + function_size`. -/
def publicAfterFuncEnd (nearest : Option (Function × Nat × Nat)) (p : Nat) : Bool :=
  match nearest with
  | none => true
  | some (_, fbase, fsize) => decide (u64add fbase fsize < p)

/-- The stack-info probe of LookupAddress (part_000:765-768): the
FRAME_DATA slot (type 4) first; only when that finds nothing, the FPO slot
(type 0). -/
def Module.stackInfoProbe (m : Module) (address : Nat) : Option StackFrameInfo :=
  match m.stack_info_.frame_data.RetrieveRange address with
  | some info => some info
  | none => m.stack_info_.fpo.RetrieveRange address

/-- The function/public-symbol step of LookupAddress (part_000:789-823):
the nearest function below the address fills the frame (name, base, and
source line when one covers the address) only when the address lies inside
its range; otherwise a public symbol found by nearest-below lookup fills
the frame only when no nearest function exists or the symbol sits strictly
above that function's end.  Returns the updated frame and the record's
parameter size, or none when neither record applied. -/
def Module.applyFuncOrPublic (m : Module) (frame : StackFrame)
    (address : Nat) : Option (StackFrame × Nat) :=
  let nearest := m.functions_.RetrieveNearestRange address
  let tryPublic : Unit → Option (StackFrame × Nat) := fun _ =>
    match m.public_symbols_.Retrieve address with
    | some (public_symbol, public_address) =>
      if publicAfterFuncEnd nearest public_address then
        some ({ frame with
                function_name := public_symbol.name,
                function_base := u64add frame.module_base public_address },
              public_symbol.parameter_size)
      else none
    | none => none
  match nearest with
  | some (func, function_base, function_size) =>
    if insideFunction address function_base function_size then
      let frame1 := { frame with
        function_name := func.name,
        function_base := u64add frame.module_base function_base }
      let frame2 :=
        match func.lines.RetrieveRange address with
        | some (line, line_base, _) =>
          let frameF :=
            match filesFind m.files_ line.source_file_id with
            | some fname => { frame1 with source_file_name := fname }
            | none => frame1
          { frameF with
            source_line := line.line,
            source_line_base := u64add frame.module_base line_base }
        | none => frame1
      some (frame2, func.parameter_size)
    else tryPublic ()
  | none => tryPublic ()

/-- Module::LookupAddress, assembled: the stack-info probe (performed
up front in the source, a pure computation here), the function/public
step, and the synthesis of a parameter-size-only info when the probe found
nothing but a record applied. -/
def Module.LookupAddress (m : Module) (frame : StackFrame) :
    StackFrame × Option StackFrameInfo :=
  let address := u64sub frame.instruction frame.module_base
  match m.applyFuncOrPublic frame address with
  | none => (frame, m.stackInfoProbe address)
  | some (frame', parameter_size) =>
    match m.stackInfoProbe address with
    | some info => (frame', some info)
    | none =>
      (frame', some { StackFrameInfo.empty with
                      parameter_size := parameter_size,
                      valid := VALID_PARAMETER_SIZE })

/-! ## The sym-file parser (part_000:674-752 and 883-1051)

A map file is modelled as the list of its lines (the strings fgets hands to
the dispatcher, without the terminating NUL; trailing CR/LF may be present
and is stripped by tokenization). -/

/-- Module::ParseFile (part_000:883-904): `FILE <id> <filename>` with the
FILE prefix already skipped.  The id is atoi-parsed and rejected when
negative; the filename is the unsplit remainder. -/
def ParseFile (cs : List Char) (files : List (Nat × String)) :
    Option (List (Nat × String)) :=
  match tokenizeCS cs 2 with
  | [t0, t1] =>
    let index := atoiVal t0
    if index < 0 then none
    else some (filesInsert files index.toNat (String.mk t1))
  | _ => none

/-- Module::ParseFunction (part_000:906-922): `FUNC <address> <size>
<stack_param_size> <name>` with the prefix skipped; the first three tokens
hex, the name the unsplit remainder.  The parameter size passes through an
int, hence the u32 reduction. -/
def ParseFunction (cs : List Char) : Option Function :=
  match tokenizeCS cs 4 with
  | [t0, t1, t2, t3] =>
    some ⟨String.mk t3, hexVal t0, hexVal t1, hexVal t2 % U32MOD, RangeMap.empty⟩
  | _ => none

/-- Module::ParseLine (part_000:924-941): `<address> <size> <line number>
<source file id>`, the first two hex, the last two atoi-parsed ints; a
non-positive line number is rejected; the file id is narrowed to u32. -/
def ParseLine (cs : List Char) : Option Line :=
  match tokenizeCS cs 4 with
  | [t0, t1, t2, t3] =>
    let line_number := atoiVal t2
    if line_number ≤ 0 then none
    else some ⟨hexVal t0, hexVal t1, intToU32 (atoiVal t3), line_number.toNat⟩
  | _ => none

/-- Module::ParsePublicSymbol (part_000:943-971): `PUBLIC <address>
<stack_param_size> <name>` with the prefix skipped.  An address of zero is
gracefully accepted without storing; otherwise Store's duplicate-address
failure is the parse result. -/
def ParsePublicSymbol (cs : List Char) (publics : AddressMap PublicSymbol) :
    Option (AddressMap PublicSymbol) :=
  match tokenizeCS cs 3 with
  | [t0, t1, t2] =>
    let address := hexVal t0
    if address == 0 then some publics
    else
      let (ok, publics') :=
        publics.Store address ⟨String.mk t2, address, hexVal t1 % U32MOD⟩
      if ok then some publics' else none
  | _ => none

/-- Module::ParseStackInfo (part_000:973-1051): `STACK WIN <type> <rva>
<code_size> <prolog> <epilog> <param> <saved_regs> <locals> <max_stack>
<has_program_string> <tail>` with the STACK prefix skipped.  Only the WIN
dialect is accepted; the type must be 0..4; the tail is a program string or
the allocates-base-pointer flag; the StoreRange result is deliberately
ignored (overlapping MSVC records are dropped). -/
def ParseStackInfo (cs : List Char) (sarr : StackInfoArray) :
    Option StackInfoArray :=
  match tokenizeCS cs 12 with
  | [t0, t1, t2, t3, t4, t5, t6, t7, t8, t9, t10, t11] =>
    if t0 ≠ "WIN".data then none
    else
      let type := hexVal t1
      if 5 ≤ type then none
      else
        let rva := hexVal t2
        let code_size := hexVal t3
        let has_program_string := hexVal t10 ≠ 0
        let program_string := if has_program_string then String.mk t11 else ""
        let allocates_base_pointer :=
          if has_program_string then false else hexVal t11 % U32MOD ≠ 0
        let info : StackFrameInfo :=
          ⟨VALID_ALL, hexVal t4 % U32MOD, hexVal t5 % U32MOD,
           hexVal t6 % U32MOD, hexVal t7 % U32MOD, hexVal t8 % U32MOD,
           hexVal t9 % U32MOD, allocates_base_pointer, program_string⟩
        let (_, slot') := (sarr.get type).StoreRange rva code_size info
        some (sarr.set type slot')
  | _ => none

/-- The parser's running state: the module being filled and the current
function (the target of bare line records), with the flag telling whether
that function was successfully stored in functions_ (StoreRange may have
silently rejected it). -/
structure LoadSt where
  m : Module
  cur : Option (Function × Bool)

/-- Dispatch one line of the map file (the body of the LoadMap loop,
part_000:693-749).  none aborts the whole load. -/
def loadMapLine (st : LoadSt) (l : String) : Option LoadSt :=
  if "FILE ".data.isPrefixOf l.data then
    match ParseFile (l.data.drop 5) st.m.files_ with
    | some files' => some { st with m := { st.m with files_ := files' } }
    | none => none
  else if "STACK ".data.isPrefixOf l.data then
    match ParseStackInfo (l.data.drop 6) st.m.stack_info_ with
    | some stacks' => some { st with m := { st.m with stack_info_ := stacks' } }
    | none => none
  else if "FUNC ".data.isPrefixOf l.data then
    match ParseFunction (l.data.drop 5) with
    | some func =>
      let (stored, functions') :=
        st.m.functions_.StoreRange func.address func.size func
      some { m := { st.m with functions_ := functions' },
             cur := some (func, stored) }
    | none => none
  else if "PUBLIC ".data.isPrefixOf l.data then
    match ParsePublicSymbol (l.data.drop 7) st.m.public_symbols_ with
    | some publics' =>
      some { m := { st.m with public_symbols_ := publics' }, cur := none }
    | none => none
  else if "MODULE ".data.isPrefixOf l.data then
    some st
  else
    match st.cur with
    | none => none
    | some (func, stored) =>
      match ParseLine l.data with
      | some line =>
        let (_, lines') := func.lines.StoreRange line.address line.size line
        let func' := { func with lines := lines' }
        let functions' :=
          if stored then st.m.functions_.updateVal func.address func'
          else st.m.functions_
        some { m := { st.m with functions_ := functions' },
               cur := some (func', stored) }
      | none => none

/-- Module::LoadMap (part_000:674-752) over the file content; none is the
failed open (fopen NULL) and any parse failure. -/
def Module.LoadMap (file : Option (List String)) (m : Module) : Option Module :=
  match file with
  | none => none
  | some lines =>
    (lines.foldlM loadMapLine { m := m, cur := none }).map LoadSt.m

/-! ## ModuleSerializer (part_000:213-583)

Serialize writes the format version, the file map, the function RangeMap,
the public-symbol AddressMap and the five stack_info trees in slot order.
Deserialize mirrors the reads.  The C++ Deserialize returns false only when
no stream is configured or the format version mismatches (in which case
nothing beyond the version has been read); it is only ever invoked on a
freshly constructed module.  Reads running off the end of a malformed
stream are modelled as failure (none) — on every stream Serialize produces,
and on the version-mismatch path, the model agrees with the code exactly. -/

/-- Increment this if changing the serializing format
(ModuleSerializer::SERIALIZE_FORMAT, part_000:257). -/
def SERIALIZE_FORMAT : Nat := 1

/-- Encode a list of values back to back. -/
def encListA {α : Type} (enc : α → List Tok) : List α → List Tok
  | [] => []
  | x :: xs => enc x ++ encListA enc xs

/-- Decode exactly n consecutive values, threading the rest of the stream. -/
def decListA {α : Type} (dec : List Tok → Option (α × List Tok)) :
    Nat → List Tok → Option (List α × List Tok)
  | 0, s => some ([], s)
  | n + 1, s => do
    let (x, s) ← dec s
    let (xs, s) ← decListA dec n s
    some (x :: xs, s)

/-- Write(linked_ptr): a presence marker, then the pointee
(part_000:557-567). -/
def encOptV {V : Type} (encV : V → List Tok) : Option V → List Tok
  | none => [Tok.u32 0]
  | some v => Tok.u32 1 :: encV v

/-- Read(linked_ptr): marker then pointee; marker 0 leaves it null
(part_000:569-579). -/
def decOptV {V : Type} (decV : List Tok → Option (V × List Tok))
    (s : List Tok) : Option (Option V × List Tok) := do
  let (marker, s) ← readU32 s
  if marker == 1 then do
    let (v, s) ← decV s
    some (some v, s)
  else
    some (none, s)

/-- Write(Line) (part_000:505-510). -/
def encLine (l : Line) : List Tok :=
  [Tok.u64 l.address, Tok.u64 l.size, Tok.u32 l.source_file_id, Tok.u32 l.line]

/-- Read(Line*) (part_000:514-527). -/
def decLine (s : List Tok) : Option (Line × List Tok) := do
  let (address, s) ← readU64 s
  let (size, s) ← readU64 s
  let (source_file_id, s) ← readU32 s
  let (line, s) ← readU32 s
  some (⟨address, size, source_file_id, line⟩, s)

/-- Write(RangeMap entry): the map key (the range's high endpoint,
base + size - 1), the Range base, then the entry through the linked_ptr
writer — the stored entries are never null, so the marker is 1
(part_000:358-366 and 390-394). -/
def encRMEntry {V : Type} (encV : V → List Tok) (e : Nat × Nat × V) : List Tok :=
  Tok.u64 (e.1 + e.2.1 - 1) :: Tok.u64 e.1 :: Tok.u32 1 :: encV e.2.2

/-- Read of one RangeMap entry (part_000:368-388): high key, base, marker,
value; the size is the width of [base, high]. -/
def decRMEntry {V : Type} (decV : List Tok → Option (V × List Tok))
    (s : List Tok) : Option ((Nat × Nat × V) × List Tok) := do
  let (high, s) ← readU64 s
  let (base, s) ← readU64 s
  let (marker, s) ← readU32 s
  if marker == 1 then do
    let (v, s) ← decV s
    some ((base, high + 1 - base, v), s)
  else none

/-- Write(RangeMap): entry count then the entries in key order. -/
def encRM {V : Type} (encV : V → List Tok) (m : RangeMap V) : List Tok :=
  Tok.u32 m.entries.length :: encListA (encRMEntry encV) m.entries

/-- Read(RangeMap): count then entries, inserted in read order. -/
def decRM {V : Type} (decV : List Tok → Option (V × List Tok))
    (s : List Tok) : Option (RangeMap V × List Tok) := do
  let (n, s) ← readU32 s
  let (es, s) ← decListA (decRMEntry decV) n s
  some (RangeMap.mk es, s)

/-- Write(Function) (part_000:461-467): name, address, size,
parameter_size, lines. -/
def encFunction (f : Function) : List Tok :=
  encStr f.name ++
  (Tok.u64 f.address :: Tok.u64 f.size :: Tok.u32 f.parameter_size ::
   encRM encLine f.lines)

/-- Read(Function*) (part_000:471-484). -/
def decFunction (s : List Tok) : Option (Function × List Tok) := do
  let (name, s) ← decStr s
  let (address, s) ← readU64 s
  let (size, s) ← readU64 s
  let (parameter_size, s) ← readU32 s
  let (lines, s) ← decRM decLine s
  some (⟨name, address, size, parameter_size, lines⟩, s)

/-- Write(PublicSymbol) (part_000:486-490). -/
def encPublicSymbol (p : PublicSymbol) : List Tok :=
  encStr p.name ++ [Tok.u64 p.address, Tok.u32 p.parameter_size]

/-- Read(PublicSymbol*) (part_000:494-503). -/
def decPublicSymbol (s : List Tok) : Option (PublicSymbol × List Tok) := do
  let (name, s) ← decStr s
  let (address, s) ← readU64 s
  let (parameter_size, s) ← readU32 s
  some (⟨name, address, parameter_size⟩, s)

/-- Write of one AddressMap entry: key, then the linked_ptr marker and the
symbol (the stored pointers are never null). -/
def encAMEntry {V : Type} (encV : V → List Tok) (e : Nat × V) : List Tok :=
  Tok.u64 e.1 :: Tok.u32 1 :: encV e.2

/-- Read of one AddressMap entry. -/
def decAMEntry {V : Type} (decV : List Tok → Option (V × List Tok))
    (s : List Tok) : Option ((Nat × V) × List Tok) := do
  let (k, s) ← readU64 s
  let (marker, s) ← readU32 s
  if marker == 1 then do
    let (v, s) ← decV s
    some ((k, v), s)
  else none

/-- Write(AddressMap) = Write of its underlying map (part_000:396-399). -/
def encAM {V : Type} (encV : V → List Tok) (m : AddressMap V) : List Tok :=
  Tok.u32 m.entries.length :: encListA (encAMEntry encV) m.entries

/-- Read(AddressMap) (part_000:401-404). -/
def decAM {V : Type} (decV : List Tok → Option (V × List Tok))
    (s : List Tok) : Option (AddressMap V × List Tok) := do
  let (n, s) ← readU32 s
  let (es, s) ← decListA (decAMEntry decV) n s
  some (AddressMap.mk es, s)

/-- Write of one file-map entry: u32 id then the path string. -/
def encFileEntry (e : Nat × String) : List Tok :=
  Tok.u32 e.1 :: encStr e.2

/-- Read of one file-map entry. -/
def decFileEntry (s : List Tok) : Option ((Nat × String) × List Tok) := do
  let (k, s) ← readU32 s
  let (v, s) ← decStr s
  some ((k, v), s)

/-- Write of the file map (part_000:302-310 / 328-337): size then
key/value pairs in iteration order. -/
def encFiles (fs : List (Nat × String)) : List Tok :=
  Tok.u32 fs.length :: encListA encFileEntry fs

/-- Read of the file map (part_000:312-326 / 339-355): count then pairs,
inserted in read order (the stream written by Serialize has unique keys, so
plain collection models the map insert). -/
def decFiles (s : List Tok) : Option (List (Nat × String) × List Tok) := do
  let (n, s) ← readU32 s
  let (es, s) ← decListA decFileEntry n s
  some (es, s)

/-- Write(StackFrameInfo) (part_000:529-539). -/
def encSFI (i : StackFrameInfo) : List Tok :=
  Tok.u32 i.valid :: Tok.u32 i.prolog_size :: Tok.u32 i.epilog_size ::
  Tok.u32 i.parameter_size :: Tok.u32 i.saved_register_size ::
  Tok.u32 i.local_size :: Tok.u32 i.max_stack_size ::
  Tok.u32 (if i.allocates_base_pointer then 1 else 0) ::
  encStr i.program_string

/-- Read(StackFrameInfo*) (part_000:542-555); allocates_base_pointer is
restored as `read value != 0`. -/
def decSFI (s : List Tok) : Option (StackFrameInfo × List Tok) := do
  let (valid, s) ← readU32 s
  let (prolog_size, s) ← readU32 s
  let (epilog_size, s) ← readU32 s
  let (parameter_size, s) ← readU32 s
  let (saved_register_size, s) ← readU32 s
  let (local_size, s) ← readU32 s
  let (max_stack_size, s) ← readU32 s
  let (abp, s) ← readU32 s
  let (program_string, s) ← decStr s
  some (⟨valid, prolog_size, epilog_size, parameter_size,
         saved_register_size, local_size, max_stack_size,
         !(abp == 0), program_string⟩, s)

mutual
/-- Write(ContainedRangeMap) by value (part_000:406-418): base, entry via
the linked_ptr writer, then a marker for the child map followed by the map
(count, then key and non-null child pointer per entry). -/
def encCRM {V : Type} (encV : V → List Tok) : ContainedRangeMap V → List Tok
  | .node b e ch =>
    Tok.u64 b :: encOptV encV e ++
    (match ch with
     | none => [Tok.u32 0]
     | some kids => Tok.u32 1 :: Tok.u32 (crmKidsLen kids) :: encKids encV kids)
/-- Write of the child map entries (part_000:436-446): key, pointer marker
1, then the child by value. -/
def encKids {V : Type} (encV : V → List Tok) : CRMChildren V → List Tok
  | .nil => []
  | .cons key c rest => Tok.u64 key :: Tok.u32 1 :: (encCRM encV c ++ encKids encV rest)
end

mutual
/-- Read(ContainedRangeMap) (part_000:420-434), fueled: the fuel only
bounds the recursion depth and any fuel at least the tree depth decodes the
full tree.  Deserialize passes the stream length, which always suffices. -/
def decCRM {V : Type} (decV : List Tok → Option (V × List Tok)) :
    Nat → List Tok → Option (ContainedRangeMap V × List Tok)
  | 0, _ => none
  | fuel + 1, s => do
    let (b, s) ← readU64 s
    let (e, s) ← decOptV decV s
    let (marker, s) ← readU32 s
    if marker == 1 then do
      let (n, s) ← readU32 s
      let (kids, s) ← decKids decV fuel n s
      some (.node b e (some kids), s)
    else
      some (.node b e none, s)
termination_by fuel _ => (fuel, 0)
/-- Read of n child-map entries (part_000:448-459): key, pointer marker
(always 1 in a Serialize-produced stream), then the child. -/
def decKids {V : Type} (decV : List Tok → Option (V × List Tok)) :
    Nat → Nat → List Tok → Option (CRMChildren V × List Tok)
  | _, 0, s => some (.nil, s)
  | fuel, n + 1, s => do
    let (key, s) ← readU64 s
    let (pm, s) ← readU32 s
    if pm == 1 then do
      let (c, s) ← decCRM decV fuel s
      let (rest, s) ← decKids decV fuel n s
      some (.cons key c rest, s)
    else none
termination_by fuel n _ => (fuel, n + 1)
end

/-- ModuleSerializer::Serialize (part_000:220-233): format version, files,
functions, public symbols, then the five stack_info slots in order. -/
def ModuleSerializer.Serialize (m : Module) : List Tok :=
  Tok.u32 SERIALIZE_FORMAT ::
  (encFiles m.files_ ++ encRM encFunction m.functions_ ++
   encAM encPublicSymbol m.public_symbols_ ++
   encCRM encSFI m.stack_info_.fpo ++ encCRM encSFI m.stack_info_.trap ++
   encCRM encSFI m.stack_info_.tss ++ encCRM encSFI m.stack_info_.standard ++
   encCRM encSFI m.stack_info_.frame_data)

/-- ModuleSerializer::Deserialize (part_000:235-253) on the module `m` it
was handed (always freshly constructed by the caller): verify the format
version — none on mismatch, before anything else is read — then read the
maps into the module.  The module name is not part of the stream. -/
def ModuleSerializer.Deserialize (s : List Tok) (m : Module) : Option Module :=
  let fuel := s.length
  (do
    let (format, s) ← readU32 s
    if format == SERIALIZE_FORMAT then do
      let (files, s) ← decFiles s
      let (functions, s) ← decRM decFunction s
      let (publics, s) ← decAM decPublicSymbol s
      let (c0, s) ← decCRM decSFI fuel s
      let (c1, s) ← decCRM decSFI fuel s
      let (c2, s) ← decCRM decSFI fuel s
      let (c3, s) ← decCRM decSFI fuel s
      let (c4, _) ← decCRM decSFI fuel s
      some { m with
             files_ := files,
             functions_ := functions,
             public_symbols_ := publics,
             stack_info_ := ⟨c0, c1, c2, c3, c4⟩ }
    else none)

/-! ## The resolver (part_000:585-660) -/

/-- BasicSourceLineResolver: the module table keyed by module name, and the
optional module cache, modelled by what its GetModuleData returns per
symbol-file path. -/
structure BasicSourceLineResolver where
  modules_ : List (String × Module)
  module_cache_ : Option (String → Option (List Tok))

/-- modules_->find. -/
def modulesFind (ms : List (String × Module)) (k : String) : Option Module :=
  match ms.find? (fun e => e.1 == k) with
  | some e => some e.2
  | none => none

/-- BasicSourceLineResolver::HasModule (part_000:647-649). -/
def BasicSourceLineResolver.HasModule (r : BasicSourceLineResolver)
    (module_name : String) : Bool :=
  (modulesFind r.modules_ module_name).isSome

/-- The cache consultation: some stream when a cache is configured and
GetModuleData succeeds for this map file. -/
def cacheGet (r : BasicSourceLineResolver) (map_file : String) : Option (List Tok) :=
  match r.module_cache_ with
  | none => none
  | some c => c map_file

/-- BasicSourceLineResolver::LoadModule (part_000:603-645).  `readF` is the
filesystem: the lines of a map file, or none when it cannot be opened.  A
name already in the table fails up front.  On a cache hit the module is
deserialized — the Deserialize return value is IGNORED (part_000:622), so a
failed decode still registers the module in whatever state Deserialize left
it (fresh, on a version mismatch).  Otherwise the map file is parsed; parse
failure returns false without registering; on success the module is
registered (the write-back into a configured cache is an external effect
with no resolver state). -/
def BasicSourceLineResolver.LoadModule (r : BasicSourceLineResolver)
    (module_name map_file : String)
    (readF : String → Option (List String)) : Bool × BasicSourceLineResolver :=
  if (modulesFind r.modules_ module_name).isSome then
    (false, r)
  else
    let module0 := Module.empty module_name
    match cacheGet r map_file with
    | some stream =>
      let module := (ModuleSerializer.Deserialize stream module0).getD module0
      (true, { r with modules_ := (module_name, module) :: r.modules_ })
    | none =>
      match module0.LoadMap (readF map_file) with
      | none => (false, r)
      | some module =>
        (true, { r with modules_ := (module_name, module) :: r.modules_ })

/-! ## Well-formedness of parsed modules

Every module LoadMap builds satisfies ModuleWF: its strings come from C
strings (no NUL), its RangeMap entries were admitted by StoreRange (positive
size), and its file map has unique ids (map::insert never duplicates). -/

/-- All stored ranges have positive size. -/
def rmSizesOK {V : Type} (m : RangeMap V) : Bool :=
  m.entries.all (fun e => decide (1 ≤ e.2.1))

/-- A function whose strings and line ranges are parser-producible. -/
def functionOK (f : Function) : Bool := strOK f.name && rmSizesOK f.lines

/-- A stack record whose program string is parser-producible. -/
def sfiOK (i : StackFrameInfo) : Bool := strOK i.program_string

/-- The file-map keys are pairwise distinct. -/
def keysNodupB : List (Nat × String) → Bool
  | [] => true
  | e :: rest => !(rest.any (fun x => x.1 == e.1)) && keysNodupB rest

/-- The file-map keys are strictly increasing (the std::map order
filesInsert maintains); strict sortedness implies distinctness. -/
def keysSorted : List (Nat × String) → Bool
  | [] => true
  | [_] => true
  | e1 :: e2 :: rest => decide (e1.1 < e2.1) && keysSorted (e2 :: rest)

/-- All five stack-info slots carry parser-producible records. -/
def sarrOK (a : StackInfoArray) : Bool :=
  crmAllB sfiOK a.fpo && crmAllB sfiOK a.trap && crmAllB sfiOK a.tss &&
  crmAllB sfiOK a.standard && crmAllB sfiOK a.frame_data

/-- Well-formedness of a module, as established by LoadMap. -/
def ModuleWF (m : Module) : Bool :=
  keysSorted m.files_ && m.files_.all (fun kv => strOK kv.2) &&
  rmSizesOK m.functions_ &&
  m.functions_.entries.all (fun e => functionOK e.2.2) &&
  m.public_symbols_.entries.all (fun e => strOK e.2.name) &&
  sarrOK m.stack_info_

mutual
/-- Nesting depth of a ContainedRangeMap (at least 1); any decoder fuel at
or above it suffices. -/
def crmDepth {V : Type} : ContainedRangeMap V → Nat
  | .node _ _ none => 1
  | .node _ _ (some kids) => crmKidsDepth kids + 1
/-- Greatest depth among the children. -/
def crmKidsDepth {V : Type} : CRMChildren V → Nat
  | .nil => 0
  | .cons _ c rest => max (crmDepth c) (crmKidsDepth rest)
end

/-! ## The amended structural-equality reading (claim C2)

Modelled from the spec's words for the refinement comparison: Module.Equals
agrees pairwise-structurally on files, functions, public symbols and all
five stack_info slots — with function equality covering names, addresses,
sizes and line sets but NOT parameter sizes, which the code's
Equals(Function, Function) does not compare. -/

/-- Structural match of two functions as Module.Equals actually compares
them: name, address, size and the line set; parameter_size excluded. -/
def FunctionMatches (a b : Function) : Prop :=
  a.name = b.name ∧ a.address = b.address ∧ a.size = b.size ∧
  a.lines.entries = b.lines.entries

/-- Pairwise-structural agreement of two modules per the amended claim:
file maps agree as maps, function entries agree pairwise without parameter
sizes, public symbols agree, and all five stack-info slots agree. -/
def ModulesAgree (a b : Module) : Prop :=
  (a.files_.length = b.files_.length ∧
   ∀ kv ∈ a.files_, filesFind b.files_ kv.1 = some kv.2) ∧
  (a.functions_.entries.length = b.functions_.entries.length ∧
   ∀ p ∈ a.functions_.entries.zip b.functions_.entries,
     p.1.1 = p.2.1 ∧ p.1.2.1 = p.2.2.1 ∧ FunctionMatches p.1.2.2 p.2.2.2) ∧
  a.public_symbols_.entries = b.public_symbols_.entries ∧
  ∀ i < 5, a.stack_info_.get i = b.stack_info_.get i

/-! ## Concrete modules, frames and resolvers used by witnesses and
counterexamples -/

/-- A function at [0x100, 0x120) with parameter size 4. -/
def fP4 : Function := ⟨"foo", 256, 32, 4, ⟨[]⟩⟩

/-- The same function with parameter size 8. -/
def fP8 : Function := ⟨"foo", 256, 32, 8, ⟨[]⟩⟩

/-- A module holding only fP4. -/
def mP4 : Module := ⟨"t", [], ⟨[(256, 32, fP4)]⟩, ⟨[]⟩, StackInfoArray.empty⟩

/-- A module identical to mP4 except fP4's parameter size. -/
def mP8 : Module := ⟨"t", [], ⟨[(256, 32, fP8)]⟩, ⟨[]⟩, StackInfoArray.empty⟩

/-- A function "f" at [0x100, 0x120) with parameter size 0 and no lines. -/
def funcW : Function := ⟨"f", 256, 32, 0, ⟨[]⟩⟩

/-- A public symbol "p" at 0x50 (below funcW's end 0x120). -/
def pubLow : PublicSymbol := ⟨"p", 80, 0⟩

/-- A public symbol "q" at 0x200 (above funcW's end 0x120). -/
def pubHigh : PublicSymbol := ⟨"q", 512, 8⟩

/-- A module with funcW and the low public symbol. -/
def mPubLow : Module :=
  ⟨"t", [], ⟨[(256, 32, funcW)]⟩, ⟨[(80, pubLow)]⟩, StackInfoArray.empty⟩

/-- A frame whose module-relative address is 0x130: past funcW's end. -/
def frPast : StackFrame := ⟨4400, 4096, "", 0, "", 0, 0⟩

/-- A frame whose module-relative address is 0x110: inside funcW. -/
def frInside : StackFrame := ⟨4368, 4096, "", 0, "", 0, 0⟩

/-- A type-0 (FPO) stack record with program string "prog0". -/
def sfiT0 : StackFrameInfo := ⟨VALID_ALL, 0, 0, 0, 0, 0, 0, false, "prog0"⟩

/-- A type-4 (FRAME_DATA) stack record with program string "prog4". -/
def sfiT4 : StackFrameInfo := ⟨VALID_ALL, 0, 0, 0, 0, 0, 0, false, "prog4"⟩

/-- A one-record tree covering [0x1000, 0x1100) with sfiT0. -/
def crmT0 : ContainedRangeMap StackFrameInfo :=
  .node 0 none (some (.cons 4351 (.node 4096 (some sfiT0) none) .nil))

/-- A one-record tree covering [0x1000, 0x1100) with sfiT4. -/
def crmT4 : ContainedRangeMap StackFrameInfo :=
  .node 0 none (some (.cons 4351 (.node 4096 (some sfiT4) none) .nil))

/-- A module whose FPO and FRAME_DATA slots both cover [0x1000, 0x1100)
with different program strings. -/
def mStack : Module :=
  ⟨"t", [], ⟨[]⟩, ⟨[]⟩,
   ⟨crmT0, ContainedRangeMap.empty, ContainedRangeMap.empty,
    ContainedRangeMap.empty, crmT4⟩⟩

/-- A frame whose module-relative address 0x1050 lies in both records of
mStack (module base 0). -/
def frStack : StackFrame := ⟨4176, 0, "", 0, "", 0, 0⟩

/-- mPubLow with a TRAP-slot record added: slots 1-3 must be invisible to
LookupAddress. -/
def mPubLowTrap : Module :=
  ⟨"t", [], ⟨[(256, 32, funcW)]⟩, ⟨[(80, pubLow)]⟩,
   ⟨ContainedRangeMap.empty, crmT0, ContainedRangeMap.empty,
    ContainedRangeMap.empty, ContainedRangeMap.empty⟩⟩

/-- A filesystem with one parseable sym file. -/
def readFOne : String → Option (List String) := fun _ => some ["FUNC 100 20 4 foo"]

/-- A resolver whose cache hit returns a stream with format version 2. -/
def rBadCache : BasicSourceLineResolver :=
  ⟨[], some (fun _ => some [Tok.u32 2])⟩

/-- A resolver that already holds a module named "mod". -/
def rHasMod : BasicSourceLineResolver := ⟨[("mod", mP4)], none⟩

/-- A resolver with no cache and no modules. -/
def rEmpty : BasicSourceLineResolver := ⟨[], none⟩

/-- A sym file whose second line is an orphan source-line record. -/
def readFOrphan : String → Option (List String) :=
  fun _ => some ["MODULE windows x86 DEADBEEF app", "100 10 42 1"]

/-! ## Theorems -/

/-- C5: in Module.LookupAddress the module-relative address a counts as
inside a function with range (fbase, fsize) exactly when
fbase ≤ a < fbase + fsize; the address exactly at fbase is inside and the
address exactly at fbase + fsize is not.  The hypotheses are the StoreRange
admission conditions every stored function range satisfies (positive size,
no u64 overflow of base + size). -/
theorem C5_function_containment (fbase fsize a : Nat)
    (hpos : 0 < fsize) (hfit : fbase + fsize < U64MOD) :
    (insideFunction a fbase fsize = true ↔ (fbase ≤ a ∧ a < fbase + fsize)) ∧
    insideFunction fbase fbase fsize = true ∧
    insideFunction (fbase + fsize) fbase fsize = false := by
  have hmod : (fbase + fsize) % U64MOD = fbase + fsize := Nat.mod_eq_of_lt hfit
  refine ⟨?_, ?_, ?_⟩ <;>
    simp only [insideFunction, u64add, hmod, Bool.and_eq_true, decide_eq_true_eq,
      Bool.and_eq_false_iff, decide_eq_false_iff_not, not_lt, not_le] <;>
    omega

/-- Witness for C5 at fbase = 0x100, fsize = 0x20, a = 0x110. -/
theorem C5_function_containment_witness :
    (insideFunction 272 256 32 = true ↔ (256 ≤ 272 ∧ 272 < 256 + 32)) ∧
    insideFunction 256 256 32 = true ∧
    insideFunction (256 + 32) 256 32 = false :=
  C5_function_containment 256 32 272 (by decide) (by decide)

/-- C8: LoadModule on a module name already present in the table returns
false and leaves the resolver — in particular its module table — unchanged,
whatever the map file, filesystem and cache are. -/
theorem C8_duplicate_module (r : BasicSourceLineResolver)
    (module_name map_file : String) (readF : String → Option (List String))
    (hpresent : (modulesFind r.modules_ module_name).isSome = true) :
    r.LoadModule module_name map_file readF = (false, r) := by
  simp [BasicSourceLineResolver.LoadModule, hpresent]

/-- Witness for C8: the resolver that already holds "mod". -/
theorem C8_duplicate_module_witness :
    rHasMod.LoadModule "mod" "x.sym" readFOne = (false, rHasMod) :=
  C8_duplicate_module rHasMod "mod" "x.sym" readFOne (by rfl)

/-- C10: LookupAddress results depend only on the files, functions, public
symbols and stack_info slots 0 (FPO) and 4 (FRAME_DATA): two modules that
agree on those — whatever sits in slots 1 (TRAP), 2 (TSS) and 3
(STANDARD) — produce identical LookupAddress results on every frame. -/
theorem C10_slots_123_invisible (m1 m2 : Module) (frame : StackFrame)
    (hfiles : m1.files_ = m2.files_)
    (hfuncs : m1.functions_ = m2.functions_)
    (hpubs : m1.public_symbols_ = m2.public_symbols_)
    (hfpo : m1.stack_info_.fpo = m2.stack_info_.fpo)
    (hfd : m1.stack_info_.frame_data = m2.stack_info_.frame_data) :
    m1.LookupAddress frame = m2.LookupAddress frame := by
  unfold Module.LookupAddress Module.applyFuncOrPublic Module.stackInfoProbe
  rw [hfiles, hfuncs, hpubs, hfpo, hfd]

/-- Witness for C10: mPubLow and mPubLowTrap differ exactly in the TRAP
slot and look up identically. -/
theorem C10_slots_123_invisible_witness :
    mPubLow.LookupAddress frPast = mPubLowTrap.LookupAddress frPast :=
  C10_slots_123_invisible mPubLow mPubLowTrap frPast rfl rfl rfl rfl rfl

/-- Any stack-info probe hit is returned by LookupAddress verbatim (the
function/public step only fills frame fields or synthesizes an info when
the probe found nothing). -/
theorem lookup_snd_of_probe (m : Module) (frame : StackFrame)
    (i : StackFrameInfo)
    (h : m.stackInfoProbe (u64sub frame.instruction frame.module_base) = some i) :
    (m.LookupAddress frame).2 = some i := by
  unfold Module.LookupAddress
  cases happ : m.applyFuncOrPublic frame (u64sub frame.instruction frame.module_base) with
  | none => simp [happ, h]
  | some fp => cases fp with
    | mk fr ps => simp [happ, h]

/-- C6: stack info is probed first in the FRAME_DATA slot (type 4) and the
FPO slot (type 0) is probed only when that finds nothing; in particular the
info LookupAddress returns when FRAME_DATA covers the address is exactly
the FRAME_DATA record, and when only FPO covers it, the FPO record. -/
theorem C6_stack_info_priority (m : Module) (frame : StackFrame) :
    (∀ i4, m.stack_info_.frame_data.RetrieveRange
        (u64sub frame.instruction frame.module_base) = some i4 →
      (m.LookupAddress frame).2 = some i4) ∧
    (m.stack_info_.frame_data.RetrieveRange
        (u64sub frame.instruction frame.module_base) = none →
     ∀ i0, m.stack_info_.fpo.RetrieveRange
        (u64sub frame.instruction frame.module_base) = some i0 →
      (m.LookupAddress frame).2 = some i0) := by
  constructor
  · intro i4 h4
    apply lookup_snd_of_probe
    simp [Module.stackInfoProbe, h4]
  · intro h4 i0 h0
    apply lookup_snd_of_probe
    simp [Module.stackInfoProbe, h4, h0]

/-- Witness for C6: both slots of mStack cover the address; the returned
info is the type-4 record (program string "prog4"). -/
theorem C6_stack_info_priority_witness :
    (mStack.LookupAddress frStack).2 = some sfiT4 :=
  (C6_stack_info_priority mStack frStack).1 sfiT4 (by rfl)

/-- When neither function nor public symbol applied, LookupAddress returns
the untouched frame and the bare stack-probe result (part_000:820-823). -/
theorem lookup_of_apply_none (m : Module) (frame : StackFrame)
    (happ : m.applyFuncOrPublic frame
      (u64sub frame.instruction frame.module_base) = none) :
    m.LookupAddress frame =
      (frame, m.stackInfoProbe (u64sub frame.instruction frame.module_base)) := by
  simp only [Module.LookupAddress, happ]

/-- When a record applied, the frame is the applied one, and an empty probe
yields the synthesized parameter-size-only info (part_000:825-835). -/
theorem lookup_of_apply_some (m : Module) (frame frame' : StackFrame) (ps : Nat)
    (happ : m.applyFuncOrPublic frame
      (u64sub frame.instruction frame.module_base) = some (frame', ps)) :
    (m.LookupAddress frame).1 = frame' ∧
    (m.stackInfoProbe (u64sub frame.instruction frame.module_base) = none →
      (m.LookupAddress frame).2 =
        some { StackFrameInfo.empty with
               parameter_size := ps, valid := VALID_PARAMETER_SIZE }) := by
  simp only [Module.LookupAddress, happ]
  cases hp : m.stackInfoProbe (u64sub frame.instruction frame.module_base) <;>
    simp [hp]

/-- A function containing the address makes applyFuncOrPublic yield its
parameter size (with some filled frame). -/
theorem apply_of_function (m : Module) (frame : StackFrame)
    (func : Function) (fbase fsize : Nat)
    (hnear : m.functions_.RetrieveNearestRange
      (u64sub frame.instruction frame.module_base) = some (func, fbase, fsize))
    (hin : insideFunction (u64sub frame.instruction frame.module_base)
      fbase fsize = true) :
    ∃ frame', m.applyFuncOrPublic frame
      (u64sub frame.instruction frame.module_base) =
        some (frame', func.parameter_size) := by
  unfold Module.applyFuncOrPublic
  rw [hnear]
  simp only [hin, if_true]
  exact ⟨_, rfl⟩

/-- An admissible public symbol makes applyFuncOrPublic fill the frame from
it: its name, its base, its parameter size. -/
theorem apply_of_public (m : Module) (frame : StackFrame)
    (ps : PublicSymbol) (p : Nat)
    (hpub : m.public_symbols_.Retrieve
      (u64sub frame.instruction frame.module_base) = some (ps, p))
    (hnotin : ∀ func fbase fsize,
      m.functions_.RetrieveNearestRange
        (u64sub frame.instruction frame.module_base) = some (func, fbase, fsize) →
      insideFunction (u64sub frame.instruction frame.module_base) fbase fsize = false)
    (hguard : publicAfterFuncEnd
      (m.functions_.RetrieveNearestRange
        (u64sub frame.instruction frame.module_base)) p = true) :
    m.applyFuncOrPublic frame (u64sub frame.instruction frame.module_base) =
      some ({ frame with
              function_name := ps.name,
              function_base := u64add frame.module_base p },
            ps.parameter_size) := by
  unfold Module.applyFuncOrPublic
  cases hnear : m.functions_.RetrieveNearestRange
      (u64sub frame.instruction frame.module_base) with
  | none =>
    rw [hnear] at hguard
    simp only [hpub, hguard, if_true]
  | some t =>
    obtain ⟨func, fbase, fsize⟩ := t
    rw [hnear] at hguard
    simp only [hnotin func fbase fsize hnear, Bool.false_eq_true, if_false,
      hpub, hguard, if_true]

/-- C7: when the stack-info probe (FRAME_DATA then FPO) found nothing but a
function or public symbol matched the address, the returned StackFrameInfo
is a fresh one whose parameter_size is the matched record's and whose valid
mask is exactly the VALID_PARAMETER_SIZE bit. -/
theorem C7_parameter_size_synthesis (m : Module) (frame : StackFrame) :
    (∀ func fbase fsize,
      m.stackInfoProbe (u64sub frame.instruction frame.module_base) = none →
      m.functions_.RetrieveNearestRange
        (u64sub frame.instruction frame.module_base) = some (func, fbase, fsize) →
      insideFunction (u64sub frame.instruction frame.module_base) fbase fsize = true →
      (m.LookupAddress frame).2 =
        some { StackFrameInfo.empty with
               parameter_size := func.parameter_size,
               valid := VALID_PARAMETER_SIZE }) ∧
    (∀ ps p,
      m.stackInfoProbe (u64sub frame.instruction frame.module_base) = none →
      m.public_symbols_.Retrieve
        (u64sub frame.instruction frame.module_base) = some (ps, p) →
      (∀ func fbase fsize,
        m.functions_.RetrieveNearestRange
          (u64sub frame.instruction frame.module_base) = some (func, fbase, fsize) →
        insideFunction (u64sub frame.instruction frame.module_base) fbase fsize = false) →
      publicAfterFuncEnd
        (m.functions_.RetrieveNearestRange
          (u64sub frame.instruction frame.module_base)) p = true →
      (m.LookupAddress frame).2 =
        some { StackFrameInfo.empty with
               parameter_size := ps.parameter_size,
               valid := VALID_PARAMETER_SIZE }) := by
  constructor
  · intro func fbase fsize hprobe hnear hin
    obtain ⟨frame', happ⟩ := apply_of_function m frame func fbase fsize hnear hin
    exact (lookup_of_apply_some m frame frame' func.parameter_size happ).2 hprobe
  · intro ps p hprobe hpub hnotin hguard
    have happ := apply_of_public m frame ps p hpub hnotin hguard
    exact (lookup_of_apply_some m frame _ ps.parameter_size happ).2 hprobe

/-- Witness for C7: mP4 has no stack info and a function with parameter
size 4 containing the address. -/
theorem C7_parameter_size_synthesis_witness :
    (mP4.LookupAddress frInside).2 =
      some { StackFrameInfo.empty with
             parameter_size := fP4.parameter_size,
             valid := VALID_PARAMETER_SIZE } :=
  (C7_parameter_size_synthesis mP4 frInside).1 fP4 256 32 rfl rfl (by decide)

/-- C4: when the address is not inside the nearest-below function
(fbase, fsize) but a public symbol is found at p, the symbol populates the
frame only when p > fbase + fsize; with p ≤ fbase + fsize it is never
selected — the frame stays untouched and only the bare stack-probe result
is returned. -/
theorem C4_public_symbol_guard (m : Module) (frame : StackFrame)
    (func : Function) (fbase fsize : Nat) (ps : PublicSymbol) (p : Nat)
    (hnear : m.functions_.RetrieveNearestRange
      (u64sub frame.instruction frame.module_base) = some (func, fbase, fsize))
    (hout : insideFunction (u64sub frame.instruction frame.module_base)
      fbase fsize = false)
    (hpub : m.public_symbols_.Retrieve
      (u64sub frame.instruction frame.module_base) = some (ps, p)) :
    (p ≤ u64add fbase fsize →
      m.LookupAddress frame =
        (frame, m.stackInfoProbe (u64sub frame.instruction frame.module_base))) ∧
    (u64add fbase fsize < p →
      (m.LookupAddress frame).1.function_name = ps.name ∧
      (m.LookupAddress frame).1.function_base = u64add frame.module_base p) := by
  constructor
  · intro hle
    apply lookup_of_apply_none
    unfold Module.applyFuncOrPublic
    rw [hnear]
    simp only [hout, Bool.false_eq_true, if_false, hpub, publicAfterFuncEnd]
    rw [if_neg]
    simp only [decide_eq_true_eq, not_lt]
    exact hle
  · intro hgt
    have hguard : publicAfterFuncEnd
        (m.functions_.RetrieveNearestRange
          (u64sub frame.instruction frame.module_base)) p = true := by
      rw [hnear]
      simpa [publicAfterFuncEnd] using hgt
    have hnotin : ∀ f fb fs,
        m.functions_.RetrieveNearestRange
          (u64sub frame.instruction frame.module_base) = some (f, fb, fs) →
        insideFunction (u64sub frame.instruction frame.module_base) fb fs = false := by
      intro f fb fs h
      rw [hnear] at h
      cases h
      exact hout
    have happ := apply_of_public m frame ps p hpub hnotin hguard
    have h1 := (lookup_of_apply_some m frame _ ps.parameter_size happ).1
    rw [h1]
    exact ⟨rfl, rfl⟩

/-- Witness for C4: in mPubLow the public symbol at 0x50 sits below the
nearest function's end 0x120, so the lookup at relative address 0x130
returns the untouched frame and no info. -/
theorem C4_public_symbol_guard_witness :
    mPubLow.LookupAddress frPast = (frPast, none) := by
  have h := (C4_public_symbol_guard mPubLow frPast funcW 256 32 pubLow 80
    rfl (by decide) rfl).1 (by decide)
  simpa using h

/-- Line::operator== is structural equality. -/
theorem lineEq_iff (a b : Line) : lineEq a b = true ↔ a = b := by
  cases a; cases b
  simp [lineEq, Line.mk.injEq, and_assoc]

/-- PublicSymbol::operator== is structural equality. -/
theorem pubEq_iff (a b : PublicSymbol) : pubEq a b = true ↔ a = b := by
  cases a; cases b
  simp [pubEq, PublicSymbol.mk.injEq, and_assoc]

/-- StackFrameInfo comparison is structural equality. -/
theorem sfiEq_iff (a b : StackFrameInfo) : sfiEq a b = true ↔ a = b := by
  cases a; cases b
  simp [sfiEq, StackFrameInfo.mk.injEq, and_assoc]

/-- Equals on linked_ptr lifts a structural equality to options. -/
theorem optEqW_iff {V : Type} (veq : V → V → Bool)
    (hv : ∀ x y : V, veq x y = true ↔ x = y) (o1 o2 : Option V) :
    optEqW veq o1 o2 = true ↔ o1 = o2 := by
  cases o1 <;> cases o2 <;> simp [optEqW, hv]

mutual
/-- ContainedRangeMap Equals over a structural value equality is
structural equality of the trees. -/
theorem crmEqW_iff {V : Type} (veq : V → V → Bool)
    (hv : ∀ x y : V, veq x y = true ↔ x = y) :
    ∀ (t1 t2 : ContainedRangeMap V), crmEqW veq t1 t2 = true ↔ t1 = t2
  | .node b1 e1 c1, .node b2 e2 c2 => by
    cases c1 with
    | none =>
      cases c2 <;>
        simp [crmEqW, optEqW_iff veq hv, ContainedRangeMap.node.injEq, and_assoc]
    | some k1 =>
      cases c2 with
      | none => simp [crmEqW, ContainedRangeMap.node.injEq]
      | some k2 =>
        simp [crmEqW, optEqW_iff veq hv, crmKidsEqW_iff veq hv k1 k2,
          ContainedRangeMap.node.injEq, and_assoc]
/-- Pairwise child-map Equals is structural equality of the child lists. -/
theorem crmKidsEqW_iff {V : Type} (veq : V → V → Bool)
    (hv : ∀ x y : V, veq x y = true ↔ x = y) :
    ∀ (k1 k2 : CRMChildren V), crmKidsEqW veq k1 k2 = true ↔ k1 = k2
  | .nil, .nil => by simp [crmKidsEqW]
  | .nil, .cons _ _ _ => by simp [crmKidsEqW]
  | .cons _ _ _, .nil => by simp [crmKidsEqW]
  | .cons a1 c1 r1, .cons a2 c2 r2 => by
    simp [crmKidsEqW, crmEqW_iff veq hv c1 c2, crmKidsEqW_iff veq hv r1 r2,
      CRMChildren.cons.injEq, and_assoc]
end

/-- Pairwise key/value comparison with a structural value equality is list
equality (AddressMap entries). -/
theorem amPairs_iff {V : Type} (veq : V → V → Bool)
    (hv : ∀ x y : V, veq x y = true ↔ x = y) :
    ∀ (as bs : List (Nat × V)),
      ((as.length == bs.length) &&
        (as.zip bs).all (fun pr => pr.1.1 == pr.2.1 && veq pr.1.2 pr.2.2)) = true
      ↔ as = bs := by
  intro as
  induction as with
  | nil => intro bs; cases bs <;> simp
  | cons a as ih =>
    intro bs
    cases bs with
    | nil => simp
    | cons b bs =>
      have := ih bs
      simp only [List.length_cons, List.zip_cons_cons, List.all_cons,
        Bool.and_eq_true, beq_iff_eq, Nat.add_right_cancel_iff,
        List.cons.injEq] at this ⊢
      obtain ⟨a1, a2⟩ := a
      obtain ⟨b1, b2⟩ := b
      rw [hv]
      constructor
      · rintro ⟨hlen, ⟨hk, hvv⟩, hall⟩
        refine ⟨?_, this.mp ⟨hlen, hall⟩⟩
        simp only [Prod.mk.injEq]
        exact ⟨hk, hvv⟩
      · rintro ⟨hhead, htail⟩
        have := this.mpr htail
        simp only [Prod.mk.injEq] at hhead
        exact ⟨this.1, ⟨hhead.1, hhead.2⟩, this.2⟩

/-- AddressMap::Equals over a structural value equality is equality of the
entry lists. -/
theorem amEqualsWith_iff_eq {V : Type} (veq : V → V → Bool)
    (hv : ∀ x y : V, veq x y = true ↔ x = y) (a b : AddressMap V) :
    AddressMap.EqualsWith veq a b = true ↔ a.entries = b.entries :=
  amPairs_iff veq hv a.entries b.entries

/-- Pairwise (base, size, value) comparison with a structural value
equality is list equality (RangeMap entries). -/
theorem rmPairs_iff {V : Type} (veq : V → V → Bool)
    (hv : ∀ x y : V, veq x y = true ↔ x = y) :
    ∀ (as bs : List (Nat × Nat × V)),
      ((as.length == bs.length) &&
        (as.zip bs).all
          (fun pr => pr.1.1 == pr.2.1 && pr.1.2.1 == pr.2.2.1 &&
            veq pr.1.2.2 pr.2.2.2)) = true
      ↔ as = bs := by
  intro as
  induction as with
  | nil => intro bs; cases bs <;> simp
  | cons a as ih =>
    intro bs
    cases bs with
    | nil => simp
    | cons b bs =>
      have := ih bs
      simp only [List.length_cons, List.zip_cons_cons, List.all_cons,
        Bool.and_eq_true, beq_iff_eq, Nat.add_right_cancel_iff,
        List.cons.injEq] at this ⊢
      obtain ⟨a1, a2, a3⟩ := a
      obtain ⟨b1, b2, b3⟩ := b
      rw [hv]
      constructor
      · rintro ⟨hlen, ⟨⟨hk, hs⟩, hvv⟩, hall⟩
        refine ⟨?_, this.mp ⟨hlen, hall⟩⟩
        simp only [Prod.mk.injEq]
        exact ⟨hk, hs, hvv⟩
      · rintro ⟨hhead, htail⟩
        have := this.mpr htail
        simp only [Prod.mk.injEq] at hhead
        exact ⟨this.1, ⟨⟨hhead.1, hhead.2.1⟩, hhead.2.2⟩, this.2⟩

/-- RangeMap::Equals over a structural value equality is equality of the
entry lists. -/
theorem rmEqualsWith_iff_eq {V : Type} (veq : V → V → Bool)
    (hv : ∀ x y : V, veq x y = true ↔ x = y) (a b : RangeMap V) :
    RangeMap.EqualsWith veq a b = true ↔ a.entries = b.entries :=
  rmPairs_iff veq hv a.entries b.entries

/-- Equals(Function, Function) compares exactly name, address, size and
line set — FunctionMatches — and nothing else. -/
theorem funcEquals_iff (a b : Function) :
    funcEquals a b = true ↔ FunctionMatches a b := by
  simp [funcEquals, FunctionMatches, rmEqualsWith_iff_eq lineEq lineEq_iff,
    and_assoc]

/-- RangeMap::Equals as the pairwise proposition over entries. -/
theorem rmEqualsWith_iff_pairs {V : Type} (veq : V → V → Bool)
    (a b : RangeMap V) :
    RangeMap.EqualsWith veq a b = true ↔
      (a.entries.length = b.entries.length ∧
       ∀ pr ∈ a.entries.zip b.entries,
         pr.1.1 = pr.2.1 ∧ pr.1.2.1 = pr.2.2.1 ∧ veq pr.1.2.2 pr.2.2.2 = true) := by
  simp [RangeMap.EqualsWith, List.all_eq_true, and_assoc]

/-- The per-entry check of the file-map Equals, as a proposition. -/
theorem filesFind_check_iff (b : List (Nat × String)) (kv : Nat × String) :
    (match filesFind b kv.1 with
     | some v => v == kv.2
     | none => false) = true ↔ filesFind b kv.1 = some kv.2 := by
  cases h : filesFind b kv.1 <;> simp

/-- The file-map Equals as a proposition: equal sizes and every entry of
the first found with equal value in the second. -/
theorem filesEquals_iff (a b : List (Nat × String)) :
    filesEquals a b = true ↔
      (a.length = b.length ∧ ∀ kv ∈ a, filesFind b kv.1 = some kv.2) := by
  simp only [filesEquals, Bool.and_eq_true, beq_iff_eq, List.all_eq_true]
  constructor
  · rintro ⟨hlen, hall⟩
    exact ⟨hlen, fun kv hkv => (filesFind_check_iff b kv).mp (hall kv hkv)⟩
  · rintro ⟨hlen, hall⟩
    exact ⟨hlen, fun kv hkv => (filesFind_check_iff b kv).mpr (hall kv hkv)⟩

/-- The slot-indexed and the field-by-field readings of stack-info
agreement coincide. -/
theorem slots_iff (a b : StackInfoArray) :
    (∀ i < 5, a.get i = b.get i) ↔
      (a.fpo = b.fpo ∧ a.trap = b.trap ∧ a.tss = b.tss ∧
       a.standard = b.standard ∧ a.frame_data = b.frame_data) := by
  constructor
  · intro h
    exact ⟨h 0 (by omega), h 1 (by omega), h 2 (by omega), h 3 (by omega),
      h 4 (by omega)⟩
  · rintro ⟨h0, h1, h2, h3, h4⟩ i hi
    interval_cases i <;> simpa [StackInfoArray.get]

/-- C2 (amended): Module.Equals is true exactly when the modules agree
pairwise-structurally on files, functions, public symbols and all five
stack_info slots, with function equality covering names, addresses, sizes
and line sets but NOT parameter sizes. -/
theorem C2_module_equals_characterization (a b : Module) :
    Module.Equals a b = true ↔ ModulesAgree a b := by
  unfold Module.Equals ModulesAgree
  rw [Bool.and_eq_true, Bool.and_eq_true, Bool.and_eq_true, Bool.and_eq_true,
    Bool.and_eq_true, Bool.and_eq_true, Bool.and_eq_true]
  rw [filesEquals_iff, rmEqualsWith_iff_pairs,
    amEqualsWith_iff_eq pubEq pubEq_iff, slots_iff,
    crmEqW_iff sfiEq sfiEq_iff, crmEqW_iff sfiEq sfiEq_iff,
    crmEqW_iff sfiEq sfiEq_iff, crmEqW_iff sfiEq sfiEq_iff,
    crmEqW_iff sfiEq sfiEq_iff]
  simp only [funcEquals_iff]
  tauto

/-- C2 (counterexample): mP4 and mP8 agree everywhere except the single
function's parameter_size (4 against 8), yet Module.Equals holds — so
function structural equality does not include parameter sizes and the two
modules are Equals, contrary to the claim. -/
theorem C2_counterexample :
    Module.Equals mP4 mP8 = true ∧
    mP4.files_ = mP8.files_ ∧
    mP4.public_symbols_ = mP8.public_symbols_ ∧
    mP4.stack_info_ = mP8.stack_info_ ∧
    mP4.name_ = mP8.name_ ∧
    mP4.functions_.entries = [(256, 32, fP4)] ∧
    mP8.functions_.entries = [(256, 32, fP8)] ∧
    fP4 = { fP8 with parameter_size := 4 } ∧
    fP4.parameter_size = 4 ∧ fP8.parameter_size = 8 := by
  refine ⟨?_, rfl, rfl, rfl, rfl, rfl, rfl, rfl, rfl, rfl⟩
  rfl

/-- C3: a cached stream whose leading format version is 2 (not the current
1) makes Deserialize fail; LoadModule then IGNORES that failure: it returns
true and registers the fresh empty module instead of falling back to
parsing the sym file (which here parses fine and would have produced one
function). -/
theorem C3_ignored_decode_failure :
    ModuleSerializer.Deserialize [Tok.u32 2] (Module.empty "mod") = none ∧
    (rBadCache.LoadModule "mod" "file.sym" readFOne).1 = true ∧
    (rBadCache.LoadModule "mod" "file.sym" readFOne).2.modules_ =
      [("mod", Module.empty "mod")] ∧
    (Module.LoadMap (readFOne "file.sym") (Module.empty "mod")).map
      (fun mm => mm.functions_.entries.length) = some 1 := by
  refine ⟨rfl, rfl, rfl, rfl⟩

/-- Two record prefixes with different leading characters cannot both
match a line. -/
theorem isPrefixOf_ne_head {a b : Char} {p q t : List Char}
    (hne : (b == a) = false)
    (h : (a :: p).isPrefixOf t = true) :
    (b :: q).isPrefixOf t = false := by
  cases t with
  | nil => simp [List.isPrefixOf] at h
  | cons c rest =>
    simp only [List.isPrefixOf, Bool.and_eq_true, beq_iff_eq] at h
    obtain ⟨rfl, -⟩ := h
    simp [List.isPrefixOf, hne]

/-- A FILE record line either aborts the load or only updates the file
map, keeping the current function. -/
theorem loadMapLine_FILE_cur (st : LoadSt) (x : String)
    (h : "FILE ".data.isPrefixOf x.data = true) :
    loadMapLine st x = none ∨
      ∃ st', loadMapLine st x = some st' ∧ st'.cur = st.cur := by
  simp only [loadMapLine, h, if_true]
  cases hp : ParseFile (x.data.drop 5) st.m.files_ with
  | none => exact Or.inl rfl
  | some fs => exact Or.inr ⟨_, rfl, rfl⟩

/-- A STACK record line either aborts the load or only updates the stack
info, keeping the current function. -/
theorem loadMapLine_STACK_cur (st : LoadSt) (x : String)
    (h : "STACK ".data.isPrefixOf x.data = true) :
    loadMapLine st x = none ∨
      ∃ st', loadMapLine st x = some st' ∧ st'.cur = st.cur := by
  have hF : "FILE ".data.isPrefixOf x.data = false :=
    isPrefixOf_ne_head (p := "TACK ".data) (q := "ILE ".data) (by decide) h
  simp only [loadMapLine, hF, Bool.false_eq_true, if_false, h, if_true]
  cases hp : ParseStackInfo (x.data.drop 6) st.m.stack_info_ with
  | none => exact Or.inl rfl
  | some sa => exact Or.inr ⟨_, rfl, rfl⟩

/-- A MODULE record line is ignored. -/
theorem loadMapLine_MODULE_eq (st : LoadSt) (x : String)
    (h : "MODULE ".data.isPrefixOf x.data = true) :
    loadMapLine st x = some st := by
  have hF : "FILE ".data.isPrefixOf x.data = false :=
    isPrefixOf_ne_head (p := "ODULE ".data) (q := "ILE ".data) (by decide) h
  have hS : "STACK ".data.isPrefixOf x.data = false :=
    isPrefixOf_ne_head (p := "ODULE ".data) (q := "TACK ".data) (by decide) h
  have hFu : "FUNC ".data.isPrefixOf x.data = false :=
    isPrefixOf_ne_head (p := "ODULE ".data) (q := "UNC ".data) (by decide) h
  have hP : "PUBLIC ".data.isPrefixOf x.data = false :=
    isPrefixOf_ne_head (p := "ODULE ".data) (q := "UBLIC ".data) (by decide) h
  simp only [loadMapLine, hF, hS, hFu, hP, Bool.false_eq_true, if_false,
    h, if_true]

/-- A line matching none of the five record prefixes is a source-line
record; with no current function it aborts the load
(part_000:734-739). -/
theorem loadMapLine_orphan_none (st : LoadSt) (l : String)
    (hcur : st.cur = none)
    (h1 : "FILE ".data.isPrefixOf l.data = false)
    (h2 : "STACK ".data.isPrefixOf l.data = false)
    (h3 : "FUNC ".data.isPrefixOf l.data = false)
    (h4 : "PUBLIC ".data.isPrefixOf l.data = false)
    (h5 : "MODULE ".data.isPrefixOf l.data = false) :
    loadMapLine st l = none := by
  simp only [loadMapLine, h1, h2, h3, h4, h5, Bool.false_eq_true, if_false,
    hcur]

/-- Processing MODULE/FILE/STACK lines then an orphan source-line record
fails, from any state with no current function. -/
theorem loadMap_fold_orphan (l : String) (post : List String)
    (h1 : "FILE ".data.isPrefixOf l.data = false)
    (h2 : "STACK ".data.isPrefixOf l.data = false)
    (h3 : "FUNC ".data.isPrefixOf l.data = false)
    (h4 : "PUBLIC ".data.isPrefixOf l.data = false)
    (h5 : "MODULE ".data.isPrefixOf l.data = false) :
    ∀ (pre : List String),
      (∀ x ∈ pre, "MODULE ".data.isPrefixOf x.data = true ∨
        "FILE ".data.isPrefixOf x.data = true ∨
        "STACK ".data.isPrefixOf x.data = true) →
      ∀ st : LoadSt, st.cur = none →
        List.foldlM loadMapLine st (pre ++ l :: post) = none := by
  intro pre
  induction pre with
  | nil =>
    intro _ st hcur
    simp [List.foldlM_cons, loadMapLine_orphan_none st l hcur h1 h2 h3 h4 h5]
  | cons x pre ih =>
    intro hpre st hcur
    have hx := hpre x (List.mem_cons_self x pre)
    have hrest : ∀ y ∈ pre, "MODULE ".data.isPrefixOf y.data = true ∨
        "FILE ".data.isPrefixOf y.data = true ∨
        "STACK ".data.isPrefixOf y.data = true :=
      fun y hy => hpre y (List.mem_cons_of_mem x hy)
    rw [List.cons_append, List.foldlM_cons]
    rcases hx with hM | hF | hS
    · rw [loadMapLine_MODULE_eq st x hM]
      exact ih hrest st hcur
    · rcases loadMapLine_FILE_cur st x hF with hnone | ⟨st', hsome, hc⟩
      · rw [hnone]; rfl
      · rw [hsome]
        exact ih hrest st' (hc.trans hcur)
    · rcases loadMapLine_STACK_cur st x hS with hnone | ⟨st', hsome, hc⟩
      · rw [hnone]; rfl
      · rw [hsome]
        exact ih hrest st' (hc.trans hcur)

/-- C9: a sym file whose records before some source-line record are all
MODULE/FILE/STACK (so no FUNC precedes it) makes LoadModule fail: it
returns false and registers nothing — whatever else the file contains.
The cache hypothesis restricts the claim to its scenario, loading from the
sym file rather than from a cached binary. -/
theorem C9_orphan_line_record (r : BasicSourceLineResolver)
    (module_name map_file : String) (readF : String → Option (List String))
    (pre : List String) (l : String) (post : List String)
    (hcache : cacheGet r map_file = none)
    (hfile : readF map_file = some (pre ++ l :: post))
    (hpre : ∀ x ∈ pre, "MODULE ".data.isPrefixOf x.data = true ∨
      "FILE ".data.isPrefixOf x.data = true ∨
      "STACK ".data.isPrefixOf x.data = true)
    (h1 : "FILE ".data.isPrefixOf l.data = false)
    (h2 : "STACK ".data.isPrefixOf l.data = false)
    (h3 : "FUNC ".data.isPrefixOf l.data = false)
    (h4 : "PUBLIC ".data.isPrefixOf l.data = false)
    (h5 : "MODULE ".data.isPrefixOf l.data = false) :
    r.LoadModule module_name map_file readF = (false, r) := by
  have hLM : Module.LoadMap (readF map_file) (Module.empty module_name) = none := by
    rw [hfile]
    show Option.map LoadSt.m
      (List.foldlM loadMapLine { m := Module.empty module_name, cur := none }
        (pre ++ l :: post)) = none
    rw [loadMap_fold_orphan l post h1 h2 h3 h4 h5 pre hpre
      { m := Module.empty module_name, cur := none } rfl]
    rfl
  unfold BasicSourceLineResolver.LoadModule
  cases hdup : (modulesFind r.modules_ module_name).isSome with
  | true => simp [hdup]
  | false => simp [hdup, hcache, hLM]

/-- Witness for C9: a MODULE line followed by a bare source-line record. -/
theorem C9_orphan_line_record_witness :
    rEmpty.LoadModule "mod" "app.sym" readFOrphan = (false, rEmpty) :=
  C9_orphan_line_record rEmpty "mod" "app.sym" readFOrphan
    ["MODULE windows x86 DEADBEEF app"] "100 10 42 1" []
    rfl rfl
    (by
      intro x hx
      simp only [List.mem_singleton] at hx
      subst hx
      exact Or.inl (by decide))
    (by decide) (by decide) (by decide) (by decide) (by decide)

/-! ## Round-trip lemmas for the module codec -/

/-- rmSizesOK as a proposition. -/
theorem rmSizesOK_iff {V : Type} (m : RangeMap V) :
    rmSizesOK m = true ↔ ∀ e ∈ m.entries, 1 ≤ e.2.1 := by
  simp [rmSizesOK, List.all_eq_true]

/-- takeWhile over NUL-free bytes followed by a NUL pad stops exactly at
the pad. -/
theorem takeWhile_nulfree (cs : List Char)
    (h : cs.all (fun c => !(c == nulChar)) = true) (pad : List Char) :
    (cs ++ nulChar :: pad).takeWhile (fun c => !(c == nulChar)) = cs := by
  induction cs with
  | nil => simp
  | cons c cs ih =>
    simp only [List.all_cons, Bool.and_eq_true] at h
    simp [List.cons_append, List.takeWhile_cons, h.1, ih h.2]

/-- The padded-string codec round-trips every NUL-free string. -/
theorem decStr_encStr (s : String) (h : strOK s = true) (r : List Tok) :
    decStr (encStr s ++ r) = some (s, r) := by
  obtain ⟨cs⟩ := s
  cases cs with
  | nil => rfl
  | cons c cs' =>
    have hlt : (c :: cs').length % 4 < 4 := Nat.mod_lt _ (by omega)
    obtain ⟨k, hk⟩ : ∃ k, 4 - (c :: cs').length % 4 = k + 1 :=
      ⟨4 - (c :: cs').length % 4 - 1, by omega⟩
    have hne : ((c :: cs').length + (4 - (c :: cs').length % 4) == 0) = false := by
      simp only [List.length_cons, beq_eq_false_iff_ne, ne_eq]
      omega
    show decStr (Tok.u32 ((c :: cs').length + (4 - (c :: cs').length % 4)) ::
        Tok.bytes ((c :: cs') ++
          List.replicate (4 - (c :: cs').length % 4) nulChar) :: r) =
      some (⟨c :: cs'⟩, r)
    unfold decStr
    simp only [readU32, Option.bind_eq_bind, Option.some_bind, hne,
      Bool.false_eq_true, if_false, readBytes, Option.pure_def]
    rw [hk, List.replicate_succ]
    rw [takeWhile_nulfree (c :: cs') h (List.replicate k nulChar)]

/-- Decoding a count of encoded values returns them, tail preserved. -/
theorem decListA_encListA {α : Type} (enc : α → List Tok)
    (dec : List Tok → Option (α × List Tok)) (xs : List α)
    (h : ∀ x ∈ xs, ∀ r, dec (enc x ++ r) = some (x, r)) (r : List Tok) :
    decListA dec xs.length (encListA enc xs ++ r) = some (xs, r) := by
  induction xs generalizing r with
  | nil => rfl
  | cons x xs ih =>
    simp only [encListA, List.append_assoc, List.length_cons, decListA,
      Option.bind_eq_bind, h x (List.mem_cons_self x xs), Option.some_bind]
    rw [ih (fun y hy r' => h y (List.mem_cons_of_mem x hy) r') r]
    rfl

/-- The Line codec round-trips. -/
theorem decLine_encLine (l : Line) (r : List Tok) :
    decLine (encLine l ++ r) = some (l, r) := rfl

/-- The linked_ptr codec round-trips when the pointee codec does. -/
theorem decOptV_encOptV {V : Type} (encV : V → List Tok)
    (decV : List Tok → Option (V × List Tok)) (o : Option V)
    (h : ∀ x, o = some x → ∀ r, decV (encV x ++ r) = some (x, r))
    (r : List Tok) :
    decOptV decV (encOptV encV o ++ r) = some (o, r) := by
  cases o with
  | none => rfl
  | some v =>
    simp only [encOptV, List.cons_append, decOptV, readU32,
      Option.bind_eq_bind, Option.some_bind]
    rw [h v rfl r]
    rfl

/-- One RangeMap entry round-trips: the high endpoint recovers the size of
any positively sized range. -/
theorem decRMEntry_encRMEntry {V : Type} (encV : V → List Tok)
    (decV : List Tok → Option (V × List Tok)) (e : Nat × Nat × V)
    (hs : 1 ≤ e.2.1)
    (hv : ∀ r, decV (encV e.2.2 ++ r) = some (e.2.2, r)) (r : List Tok) :
    decRMEntry decV (encRMEntry encV e ++ r) = some (e, r) := by
  obtain ⟨b, sz, v⟩ := e
  simp only at hs
  simp only [encRMEntry, List.cons_append, decRMEntry, readU64, readU32,
    Option.bind_eq_bind, Option.some_bind]
  rw [show ((1 : Nat) == 1) = true from rfl]
  simp only [if_true]
  rw [hv r]
  simp only [Option.some_bind, Option.pure_def]
  have hsz : b + sz - 1 + 1 - b = sz := by omega
  rw [hsz]

/-- The RangeMap codec round-trips any map of positively sized entries
whose values round-trip. -/
theorem decRM_encRM {V : Type} (encV : V → List Tok)
    (decV : List Tok → Option (V × List Tok)) (m : RangeMap V)
    (hs : ∀ e ∈ m.entries, 1 ≤ e.2.1)
    (hv : ∀ e ∈ m.entries, ∀ r, decV (encV e.2.2 ++ r) = some (e.2.2, r))
    (r : List Tok) :
    decRM decV (encRM encV m ++ r) = some (m, r) := by
  obtain ⟨es⟩ := m
  simp only [encRM, List.cons_append, decRM, readU32, Option.bind_eq_bind,
    Option.some_bind]
  rw [decListA_encListA (encRMEntry encV) (decRMEntry decV) es
    (fun e he r' => decRMEntry_encRMEntry encV decV e (hs e he) (hv e he) r') r]
  rfl

/-- The Function codec round-trips any well-formed function. -/
theorem decFunction_encFunction (f : Function) (h : functionOK f = true)
    (r : List Tok) :
    decFunction (encFunction f ++ r) = some (f, r) := by
  rw [functionOK, Bool.and_eq_true] at h
  obtain ⟨name, address, size, psize, lines⟩ := f
  simp only [encFunction, List.append_assoc, List.cons_append, decFunction,
    Option.bind_eq_bind]
  rw [decStr_encStr _ h.1]
  simp only [Option.some_bind, readU64, readU32]
  rw [decRM_encRM encLine decLine lines ((rmSizesOK_iff lines).mp h.2)
    (fun e _ r' => decLine_encLine e.2.2 r') r]
  rfl

/-- The PublicSymbol codec round-trips any NUL-free-named symbol. -/
theorem decPublicSymbol_encPublicSymbol (p : PublicSymbol)
    (h : strOK p.name = true) (r : List Tok) :
    decPublicSymbol (encPublicSymbol p ++ r) = some (p, r) := by
  obtain ⟨name, address, psize⟩ := p
  simp only [encPublicSymbol, List.append_assoc, List.cons_append,
    decPublicSymbol, Option.bind_eq_bind]
  rw [decStr_encStr _ h]
  rfl

/-- One AddressMap entry round-trips when its value does. -/
theorem decAMEntry_encAMEntry {V : Type} (encV : V → List Tok)
    (decV : List Tok → Option (V × List Tok)) (e : Nat × V)
    (hv : ∀ r, decV (encV e.2 ++ r) = some (e.2, r)) (r : List Tok) :
    decAMEntry decV (encAMEntry encV e ++ r) = some (e, r) := by
  obtain ⟨k, v⟩ := e
  simp only [encAMEntry, List.cons_append, decAMEntry, readU64, readU32,
    Option.bind_eq_bind, Option.some_bind]
  rw [show ((1 : Nat) == 1) = true from rfl]
  simp only [if_true]
  rw [hv r]
  rfl

/-- The AddressMap codec round-trips when the values do. -/
theorem decAM_encAM {V : Type} (encV : V → List Tok)
    (decV : List Tok → Option (V × List Tok)) (m : AddressMap V)
    (hv : ∀ e ∈ m.entries, ∀ r, decV (encV e.2 ++ r) = some (e.2, r))
    (r : List Tok) :
    decAM decV (encAM encV m ++ r) = some (m, r) := by
  obtain ⟨es⟩ := m
  simp only [encAM, List.cons_append, decAM, readU32, Option.bind_eq_bind,
    Option.some_bind]
  rw [decListA_encListA (encAMEntry encV) (decAMEntry decV) es
    (fun e he r' => decAMEntry_encAMEntry encV decV e (hv e he) r') r]
  rfl

/-- One file-map entry round-trips when its path is NUL-free. -/
theorem decFileEntry_encFileEntry (e : Nat × String) (h : strOK e.2 = true)
    (r : List Tok) :
    decFileEntry (encFileEntry e ++ r) = some (e, r) := by
  obtain ⟨k, v⟩ := e
  simp only [encFileEntry, List.cons_append, decFileEntry, readU32,
    Option.bind_eq_bind, Option.some_bind]
  rw [decStr_encStr _ h]
  rfl

/-- The file-map codec round-trips when every path is NUL-free. -/
theorem decFiles_encFiles (fs : List (Nat × String))
    (h : ∀ e ∈ fs, strOK e.2 = true) (r : List Tok) :
    decFiles (encFiles fs ++ r) = some (fs, r) := by
  simp only [encFiles, List.cons_append, decFiles, readU32,
    Option.bind_eq_bind, Option.some_bind]
  rw [decListA_encListA encFileEntry decFileEntry fs
    (fun e he r' => decFileEntry_encFileEntry e (h e he) r') r]
  rfl

/-- The StackFrameInfo codec round-trips when the program string is
NUL-free. -/
theorem decSFI_encSFI (i : StackFrameInfo) (h : sfiOK i = true)
    (r : List Tok) :
    decSFI (encSFI i ++ r) = some (i, r) := by
  obtain ⟨valid, ps, es, par, srs, ls, mss, abp, prog⟩ := i
  simp only [encSFI, List.cons_append, List.append_assoc, decSFI, readU32,
    Option.bind_eq_bind, Option.some_bind]
  rw [decStr_encStr _ h]
  simp only [Option.some_bind, Option.pure_def]
  cases abp <;> rfl

mutual
/-- Every tree level contributes at least one stream element, so the tree
depth is bounded by its encoding's length. -/
theorem crmDepth_le_encCRM {V : Type} (encV : V → List Tok) :
    ∀ t : ContainedRangeMap V, crmDepth t ≤ (encCRM encV t).length
  | .node b e none => by
    simp [crmDepth, encCRM]
  | .node b e (some kids) => by
    have h := crmKidsDepth_le_encKids encV kids
    simp only [crmDepth, encCRM, List.length_cons, List.length_append]
    omega
/-- The greatest child depth is bounded by the child list's encoding
length. -/
theorem crmKidsDepth_le_encKids {V : Type} (encV : V → List Tok) :
    ∀ kids : CRMChildren V, crmKidsDepth kids ≤ (encKids encV kids).length
  | .nil => by simp [crmKidsDepth, encKids]
  | .cons k c rest => by
    have h1 := crmDepth_le_encCRM encV c
    have h2 := crmKidsDepth_le_encKids encV rest
    simp only [crmKidsDepth, encKids, List.length_cons, List.length_append,
      Nat.max_le]
    omega
end

/-- The depth of any tree is positive. -/
theorem crmDepth_pos {V : Type} (t : ContainedRangeMap V) : 1 ≤ crmDepth t := by
  cases t with
  | node b e ch => cases ch <;> simp [crmDepth]

/-- Child-list decoding inverts encoding, given tree decoding at the same
fuel (used by the joint fuel induction below). -/
theorem decKids_encKids_of {V : Type} (encV : V → List Tok)
    (decV : List Tok → Option (V × List Tok)) (p : V → Bool) (fuel : Nat)
    (hA : ∀ (t : ContainedRangeMap V) (r : List Tok), crmAllB p t = true →
      crmDepth t ≤ fuel → decCRM decV fuel (encCRM encV t ++ r) = some (t, r)) :
    ∀ (kids : CRMChildren V) (r : List Tok), crmKidsAllB p kids = true →
      crmKidsDepth kids ≤ fuel →
      decKids decV fuel (crmKidsLen kids) (encKids encV kids ++ r) =
        some (kids, r)
  | .nil, r, _, _ => by
    simp [decKids, crmKidsLen, encKids]
  | .cons k c rest, r, hall, hd => by
    unfold crmKidsAllB at hall
    rw [Bool.and_eq_true] at hall
    unfold crmKidsDepth at hd
    rw [Nat.max_le] at hd
    simp only [encKids, crmKidsLen, List.cons_append, List.append_assoc,
      decKids, readU64, readU32, Option.bind_eq_bind, Option.some_bind]
    rw [show ((1 : Nat) == 1) = true from rfl]
    simp only [if_true]
    rw [hA c (encKids encV rest ++ r) hall.1 hd.1]
    simp only [Option.some_bind]
    rw [decKids_encKids_of encV decV p fuel hA rest r hall.2 hd.2]
    rfl

/-- The fueled ContainedRangeMap decoder inverts the encoder on any tree
whose entries satisfy p, whenever the values round-trip under p and the
fuel is at least the tree depth. -/
theorem decCRM_encCRM_all {V : Type} (encV : V → List Tok)
    (decV : List Tok → Option (V × List Tok)) (p : V → Bool)
    (hval : ∀ v, p v = true → ∀ r, decV (encV v ++ r) = some (v, r)) :
    ∀ fuel : Nat,
      ∀ (t : ContainedRangeMap V) (r : List Tok), crmAllB p t = true →
        crmDepth t ≤ fuel →
        decCRM decV fuel (encCRM encV t ++ r) = some (t, r) := by
  intro fuel
  induction fuel with
  | zero =>
    intro t r _ hd
    exact absurd (le_trans (crmDepth_pos t) hd) (by omega)
  | succ fuel ih =>
    intro t r hall hd
    cases t with
    | node b e ch =>
      have hent : ∀ x, e = some x → ∀ r', decV (encV x ++ r') = some (x, r') := by
        intro x hx r'
        subst hx
        apply hval
        have h1 : crmAllB p (ContainedRangeMap.node b (some x) ch) = true := hall
        unfold crmAllB at h1
        rw [Bool.and_eq_true] at h1
        exact h1.1
      cases ch with
      | none =>
        simp only [encCRM, List.cons_append, List.append_assoc,
          List.nil_append, decCRM, readU64, Option.bind_eq_bind,
          Option.some_bind]
        rw [decOptV_encOptV encV decV e hent (Tok.u32 0 :: r)]
        simp [readU32]
      | some kids =>
        have hkall : crmKidsAllB p kids = true := by
          unfold crmAllB at hall
          rw [Bool.and_eq_true] at hall
          exact hall.2
        have hkd : crmKidsDepth kids ≤ fuel := by
          unfold crmDepth at hd
          omega
        simp only [encCRM, List.cons_append, List.append_assoc, decCRM,
          readU64, Option.bind_eq_bind, Option.some_bind]
        rw [decOptV_encOptV encV decV e hent
          (Tok.u32 1 :: Tok.u32 (crmKidsLen kids) :: (encKids encV kids ++ r))]
        simp only [Option.some_bind, readU32]
        rw [show ((1 : Nat) == 1) = true from rfl]
        simp only [if_true]
        rw [decKids_encKids_of encV decV p fuel ih kids r hkall hkd]
        rfl

/-- The fueled tree decoder on exactly the encoding (no tail). -/
theorem decCRM_encCRM_nil {V : Type} (encV : V → List Tok)
    (decV : List Tok → Option (V × List Tok)) (p : V → Bool)
    (hval : ∀ v, p v = true → ∀ r, decV (encV v ++ r) = some (v, r))
    (fuel : Nat) (t : ContainedRangeMap V) (hall : crmAllB p t = true)
    (hd : crmDepth t ≤ fuel) :
    decCRM decV fuel (encCRM encV t) = some (t, []) := by
  have h := decCRM_encCRM_all encV decV p hval fuel t [] hall hd
  rwa [List.append_nil] at h

/-- Deserialize inverts Serialize on every well-formed module: the decoded
module carries exactly the serialized module's files, functions, public
symbols and stack info (the name is the receiving module's, as in the
code). -/
theorem Deserialize_Serialize (m : Module) (hwf : ModuleWF m = true)
    (m0 : Module) :
    ModuleSerializer.Deserialize (ModuleSerializer.Serialize m) m0 =
      some { m0 with
             files_ := m.files_,
             functions_ := m.functions_,
             public_symbols_ := m.public_symbols_,
             stack_info_ := m.stack_info_ } := by
  simp only [ModuleWF, sarrOK, Bool.and_eq_true] at hwf
  obtain ⟨⟨⟨⟨⟨hnod, hfs⟩, hsz⟩, hfn⟩, hpb⟩, ⟨⟨⟨⟨h0, h1⟩, h2⟩, h3⟩, h4⟩⟩ := hwf
  have hfs' : ∀ e ∈ m.files_, strOK e.2 = true := fun e he =>
    List.all_eq_true.mp hfs e he
  have hfn' : ∀ e ∈ m.functions_.entries, ∀ r,
      decFunction (encFunction e.2.2 ++ r) = some (e.2.2, r) := fun e he r =>
    decFunction_encFunction e.2.2 (List.all_eq_true.mp hfn e he) r
  have hsz' := (rmSizesOK_iff m.functions_).mp hsz
  have hpb' : ∀ e ∈ m.public_symbols_.entries, ∀ r,
      decPublicSymbol (encPublicSymbol e.2 ++ r) = some (e.2, r) := fun e he r =>
    decPublicSymbol_encPublicSymbol e.2 (List.all_eq_true.mp hpb e he) r
  have hlen : ∀ t : ContainedRangeMap StackFrameInfo,
      crmDepth t ≤ (encCRM encSFI t).length := crmDepth_le_encCRM encSFI
  unfold ModuleSerializer.Deserialize ModuleSerializer.Serialize
  simp only [List.append_assoc, List.length_cons, List.length_append]
  simp only [readU32, Option.bind_eq_bind, Option.some_bind]
  rw [show (SERIALIZE_FORMAT == SERIALIZE_FORMAT) = true from rfl]
  simp only [if_true]
  rw [decFiles_encFiles m.files_ hfs']
  simp only [Option.some_bind]
  rw [decRM_encRM encFunction decFunction m.functions_ hsz' hfn']
  simp only [Option.some_bind]
  rw [decAM_encAM encPublicSymbol decPublicSymbol m.public_symbols_ hpb']
  simp only [Option.some_bind]
  rw [decCRM_encCRM_all encSFI decSFI sfiOK decSFI_encSFI _
    m.stack_info_.fpo _ h0 (le_trans (hlen m.stack_info_.fpo) (by omega))]
  simp only [Option.some_bind]
  rw [decCRM_encCRM_all encSFI decSFI sfiOK decSFI_encSFI _
    m.stack_info_.trap _ h1 (le_trans (hlen m.stack_info_.trap) (by omega))]
  simp only [Option.some_bind]
  rw [decCRM_encCRM_all encSFI decSFI sfiOK decSFI_encSFI _
    m.stack_info_.tss _ h2 (le_trans (hlen m.stack_info_.tss) (by omega))]
  simp only [Option.some_bind]
  rw [decCRM_encCRM_all encSFI decSFI sfiOK decSFI_encSFI _
    m.stack_info_.standard _ h3
    (le_trans (hlen m.stack_info_.standard) (by omega))]
  simp only [Option.some_bind]
  rw [decCRM_encCRM_nil encSFI decSFI sfiOK decSFI_encSFI _
    m.stack_info_.frame_data h4
    (le_trans (hlen m.stack_info_.frame_data) (by omega))]
  rfl

/-! ## LoadMap preserves well-formedness -/

/-- A list of NUL-free characters. -/
def charsOK (cs : List Char) : Bool := cs.all (fun c => !(c == nulChar))

/-- A sublist of NUL-free characters is NUL-free. -/
theorem charsOK_of_sublist {l1 l2 : List Char} (hsub : l1.Sublist l2)
    (h : charsOK l2 = true) : charsOK l1 = true := by
  simp only [charsOK, List.all_eq_true] at h ⊢
  exact fun x hx => h x (hsub.subset hx)

/-- Both strtok results are sublists of the input. -/
theorem strtok1_sublists (d : Char → Bool) (cs t rest : List Char)
    (h : strtok1 d cs = some (t, rest)) : t.Sublist cs ∧ rest.Sublist cs := by
  unfold strtok1 at h
  cases hcs : cs.dropWhile d with
  | nil => rw [hcs] at h; exact absurd h (by simp)
  | cons c cs2 =>
    rw [hcs] at h
    simp only [Option.some.injEq, Prod.mk.injEq] at h
    have hsub : (c :: cs2).Sublist cs := by
      rw [← hcs]
      exact List.dropWhile_sublist d
    constructor
    · rw [← h.1]
      exact (List.takeWhile_sublist _).trans hsub
    · rw [← h.2]
      refine (List.tail_sublist _).trans (List.Sublist.trans ?_ hsub)
      exact List.drop_sublist _ _

/-- All tokens and the unconsumed rest of the main loop are sublists of
the input. -/
theorem tokMain_sublists (k : Nat) :
    ∀ (cs : List Char) (ts : List (List Char)) (rest : List Char) (full : Bool),
      tokMain k cs = (ts, rest, full) →
      (∀ t ∈ ts, t.Sublist cs) ∧ rest.Sublist cs := by
  induction k with
  | zero =>
    intro cs ts rest full h
    simp only [tokMain, Prod.mk.injEq] at h
    obtain ⟨rfl, rfl, -⟩ := h
    exact ⟨by simp, List.Sublist.refl cs⟩
  | succ k ih =>
    intro cs ts rest full h
    cases hs : strtok1 isSpDelim cs with
    | none =>
      have he : tokMain (k + 1) cs = ([], cs, false) := by
        simp [tokMain, hs]
      rw [he] at h
      simp only [Prod.mk.injEq] at h
      obtain ⟨rfl, rfl, -⟩ := h
      exact ⟨by simp, List.Sublist.refl cs⟩
    | some tr =>
      obtain ⟨t, r1⟩ := tr
      obtain ⟨ht, hr1⟩ := strtok1_sublists isSpDelim cs t r1 hs
      cases htm : tokMain k r1 with
      | mk ts2 p2 =>
        obtain ⟨rest2, full2⟩ := p2
        have he : tokMain (k + 1) cs = (t :: ts2, rest2, full2) := by
          simp [tokMain, hs, htm]
        rw [he] at h
        simp only [Prod.mk.injEq] at h
        obtain ⟨rfl, rfl, -⟩ := h
        obtain ⟨hts2, hrest2⟩ := ih r1 ts2 rest2 full2 htm
        refine ⟨?_, hrest2.trans hr1⟩
        intro x hx
        rcases List.mem_cons.mp hx with rfl | hx2
        · exact ht
        · exact (hts2 x hx2).trans hr1

/-- Every token Tokenize produces is a sublist of the input line. -/
theorem tokenizeCS_sublists (cs : List Char) (n : Nat) :
    ∀ t ∈ tokenizeCS cs n, t.Sublist cs := by
  intro t ht
  unfold tokenizeCS at ht
  cases htm : tokMain (n - 1) cs with
  | mk ts p =>
    obtain ⟨rest, full⟩ := p
    rw [htm] at ht
    obtain ⟨hts, hrest⟩ := tokMain_sublists (n - 1) cs ts rest full htm
    cases full with
    | false =>
      simp only [Bool.false_eq_true, if_false] at ht
      exact hts t ht
    | true =>
      simp only [if_true] at ht
      cases hs : strtok1 isCrlf rest with
      | none =>
        rw [hs] at ht
        exact hts t ht
      | some tr =>
        obtain ⟨t2, r2⟩ := tr
        rw [hs] at ht
        obtain ⟨ht2, -⟩ := strtok1_sublists isCrlf rest t2 r2 hs
        simp only [List.mem_append, List.mem_singleton] at ht
        rcases ht with hx | rfl
        · exact hts t hx
        · exact ht2.trans hrest

/-- Every token of a NUL-free line is NUL-free. -/
theorem tokenizeCS_charsOK (cs : List Char) (n : Nat) (h : charsOK cs = true) :
    ∀ t ∈ tokenizeCS cs n, charsOK t = true :=
  fun t ht => charsOK_of_sublist (tokenizeCS_sublists cs n t ht) h

/-! ### Container insertions preserve entry invariants -/

/-- rmInsert keeps an all-predicate when the new entry satisfies it. -/
theorem rmInsert_all {V : Type} (P : Nat × Nat × V → Bool) :
    ∀ (l : List (Nat × Nat × V)) (b s : Nat) (v : V),
      l.all P = true → P (b, s, v) = true → (rmInsert l b s v).all P = true
  | [], b, s, v, _, hv => by simp [rmInsert, hv]
  | e :: rest, b, s, v, hl, hv => by
    simp only [List.all_cons, Bool.and_eq_true] at hl
    unfold rmInsert
    split
    · simp only [List.all_cons, Bool.and_eq_true]
      exact ⟨hv, hl.1, hl.2⟩
    · simp only [List.all_cons, Bool.and_eq_true]
      exact ⟨hl.1, rmInsert_all P rest b s v hl.2 hv⟩

/-- StoreRange keeps positive sizes. -/
theorem StoreRange_sizesOK {V : Type} (m : RangeMap V) (b s : Nat) (v : V)
    (h : rmSizesOK m = true) : rmSizesOK (m.StoreRange b s v).2 = true := by
  unfold RangeMap.StoreRange
  split
  · exact h
  · next hguard =>
    have hs0 : s ≠ 0 := by
      intro h0
      apply hguard
      subst h0
      simp
    unfold rmSizesOK at h ⊢
    refine rmInsert_all _ m.entries b s v h ?_
    simp only [decide_eq_true_eq]
    omega

/-- StoreRange keeps a value invariant that the stored value satisfies. -/
theorem StoreRange_valsOK {V : Type} (P : V → Bool) (m : RangeMap V)
    (b s : Nat) (v : V)
    (h : m.entries.all (fun e => P e.2.2) = true) (hv : P v = true) :
    ((m.StoreRange b s v).2).entries.all (fun e => P e.2.2) = true := by
  unfold RangeMap.StoreRange
  split
  · exact h
  · exact rmInsert_all _ m.entries b s v h hv

/-- updateVal keeps positive sizes (it never touches them). -/
theorem updateVal_sizesOK {V : Type} (m : RangeMap V) (b : Nat) (v : V)
    (h : rmSizesOK m = true) : rmSizesOK (m.updateVal b v) = true := by
  unfold rmSizesOK at h ⊢
  unfold RangeMap.updateVal
  simp only [List.all_eq_true] at h ⊢
  intro e he
  obtain ⟨x, hx, rfl⟩ := List.mem_map.mp he
  split
  · simpa using h x hx
  · exact h x hx

/-- updateVal keeps a value invariant that the new value satisfies. -/
theorem updateVal_valsOK {V : Type} (P : V → Bool) (m : RangeMap V)
    (b : Nat) (v : V)
    (h : m.entries.all (fun e => P e.2.2) = true) (hv : P v = true) :
    ((m.updateVal b v)).entries.all (fun e => P e.2.2) = true := by
  unfold RangeMap.updateVal
  simp only [List.all_eq_true] at h ⊢
  intro e he
  obtain ⟨x, hx, rfl⟩ := List.mem_map.mp he
  split
  · simpa using hv
  · exact h x hx

/-- amInsert keeps an all-predicate when the new entry satisfies it. -/
theorem amInsert_all {V : Type} (P : Nat × V → Bool) :
    ∀ (l : List (Nat × V)) (k : Nat) (v : V),
      l.all P = true → P (k, v) = true → (amInsert l k v).all P = true
  | [], k, v, _, hv => by simp [amInsert, hv]
  | e :: rest, k, v, hl, hv => by
    simp only [List.all_cons, Bool.and_eq_true] at hl
    unfold amInsert
    split
    · simp only [List.all_cons, Bool.and_eq_true]
      exact ⟨hv, hl.1, hl.2⟩
    · simp only [List.all_cons, Bool.and_eq_true]
      exact ⟨hl.1, amInsert_all P rest k v hl.2 hv⟩

/-- AddressMap.Store keeps a value invariant that the stored value
satisfies. -/
theorem amStore_valsOK {V : Type} (P : V → Bool) (m : AddressMap V)
    (k : Nat) (v : V)
    (h : m.entries.all (fun e => P e.2) = true) (hv : P v = true) :
    ((m.Store k v).2).entries.all (fun e => P e.2) = true := by
  unfold AddressMap.Store
  split
  · exact h
  · exact amInsert_all _ m.entries k v h hv

mutual
/-- A successful tree insertion keeps an all-predicate that the new value
satisfies. -/
theorem crmStoreIv_allB {V : Type} (p : V → Bool) :
    ∀ (t : ContainedRangeMap V) (b h : Nat) (v : V)
      (t' : ContainedRangeMap V),
      crmAllB p t = true → p v = true → crmStoreIv t b h v = some t' →
      crmAllB p t' = true
  | .node nb ne children, b, h, v, t', hall, hv, hst => by
    unfold crmAllB at hall
    rw [Bool.and_eq_true] at hall
    cases children with
    | none =>
      have heq : crmStoreIv (ContainedRangeMap.node nb ne none) b h v =
          some (ContainedRangeMap.node nb ne
            (some (CRMChildren.cons h (ContainedRangeMap.node b (some v) none)
              CRMChildren.nil))) := by
        unfold crmStoreIv
        rfl
      rw [heq] at hst
      simp only [Option.some.injEq] at hst
      subst hst
      unfold crmAllB
      rw [Bool.and_eq_true]
      refine ⟨hall.1, ?_⟩
      unfold crmKidsAllB crmAllB crmKidsAllB
      simp [hv]
    | some kids =>
      have heq : crmStoreIv (ContainedRangeMap.node nb ne (some kids)) b h v =
          (match crmStoreKids kids b h v with
           | some kids' => some (ContainedRangeMap.node nb ne (some kids'))
           | none => none) := by
        unfold crmStoreIv
        rfl
      rw [heq] at hst
      cases hks : crmStoreKids kids b h v with
      | none => rw [hks] at hst; exact absurd hst (by simp)
      | some kids' =>
        rw [hks] at hst
        simp only [Option.some.injEq] at hst
        subst hst
        unfold crmAllB
        rw [Bool.and_eq_true]
        exact ⟨hall.1, crmStoreKids_allB p kids b h v kids' hall.2 hv hks⟩
/-- A successful sibling-list insertion keeps an all-predicate that the
new value satisfies. -/
theorem crmStoreKids_allB {V : Type} (p : V → Bool) :
    ∀ (kids : CRMChildren V) (b h : Nat) (v : V) (kids' : CRMChildren V),
      crmKidsAllB p kids = true → p v = true →
      crmStoreKids kids b h v = some kids' → crmKidsAllB p kids' = true
  | .nil, b, h, v, kids', hall, hv, hst => by
    unfold crmStoreKids at hst
    simp only [Option.some.injEq] at hst
    subst hst
    unfold crmKidsAllB crmAllB crmKidsAllB
    simp [hv]
  | .cons key c rest, b, h, v, kids', hall, hv, hst => by
    unfold crmKidsAllB at hall
    rw [Bool.and_eq_true] at hall
    unfold crmStoreKids at hst
    split at hst
    · simp only [Option.some.injEq] at hst
      subst hst
      unfold crmKidsAllB crmAllB
      simp only [Bool.and_eq_true]
      refine ⟨⟨hv, trivial⟩, ?_⟩
      · unfold crmKidsAllB
        rw [Bool.and_eq_true]
        exact ⟨hall.1, hall.2⟩
    · split at hst
      · cases hks : crmStoreKids rest b h v with
        | none => rw [hks] at hst; exact absurd hst (by simp)
        | some rest' =>
          rw [hks] at hst
          simp only [Option.some.injEq] at hst
          subst hst
          unfold crmKidsAllB
          rw [Bool.and_eq_true]
          exact ⟨hall.1, crmStoreKids_allB p rest b h v rest' hall.2 hv hks⟩
      · split at hst
        · cases hci : crmStoreIv c b h v with
          | none => rw [hci] at hst; exact absurd hst (by simp)
          | some c' =>
            rw [hci] at hst
            simp only [Option.some.injEq] at hst
            subst hst
            unfold crmKidsAllB
            rw [Bool.and_eq_true]
            exact ⟨crmStoreIv_allB p c b h v c' hall.1 hv hci, hall.2⟩
        · exact absurd hst (by simp)
end

/-- ContainedRangeMap.StoreRange keeps an all-predicate that the stored
value satisfies, whether or not the insertion was accepted. -/
theorem crmStoreRange_allB {V : Type} (p : V → Bool)
    (t : ContainedRangeMap V) (b s : Nat) (v : V)
    (hall : crmAllB p t = true) (hv : p v = true) :
    crmAllB p ((t.StoreRange b s v).2) = true := by
  unfold ContainedRangeMap.StoreRange
  split
  · exact hall
  · cases hst : crmStoreIv t b ((b + s - 1) % U64MOD) v with
    | none => exact hall
    | some t' => exact crmStoreIv_allB p t b _ v t' hall hv hst

/-- Every slot of a well-formed array is well-formed. -/
theorem sarrOK_get (a : StackInfoArray) (i : Nat) (h : sarrOK a = true) :
    crmAllB sfiOK (a.get i) = true := by
  unfold sarrOK at h
  simp only [Bool.and_eq_true] at h
  obtain ⟨⟨⟨⟨h0, h1⟩, h2⟩, h3⟩, h4⟩ := h
  unfold StackInfoArray.get
  split <;> assumption

/-- Replacing a slot with a well-formed tree keeps the array
well-formed. -/
theorem sarrOK_set (a : StackInfoArray) (i : Nat)
    (t : ContainedRangeMap StackFrameInfo)
    (h : sarrOK a = true) (ht : crmAllB sfiOK t = true) :
    sarrOK (a.set i t) = true := by
  unfold sarrOK at h
  simp only [Bool.and_eq_true] at h
  obtain ⟨⟨⟨⟨h0, h1⟩, h2⟩, h3⟩, h4⟩ := h
  unfold StackInfoArray.set
  split <;> (unfold sarrOK; simp_all)

/-- Strictly sorted keys dominate every later key. -/
theorem keysSorted_head_lt :
    ∀ (e : Nat × String) (rest : List (Nat × String)),
      keysSorted (e :: rest) = true → ∀ x ∈ rest, e.1 < x.1
  | _, [], _, x, hx => by simp at hx
  | e, e2 :: rest, h, x, hx => by
    unfold keysSorted at h
    rw [Bool.and_eq_true] at h
    rcases List.mem_cons.mp hx with rfl | hx2
    · simpa using h.1
    · have := keysSorted_head_lt e2 rest h.2 x hx2
      have h1 : e.1 < e2.1 := by simpa using h.1
      omega

/-- Strict sortedness implies key distinctness. -/
theorem keysSorted_nodup :
    ∀ fs : List (Nat × String), keysSorted fs = true → keysNodupB fs = true
  | [], _ => rfl
  | e :: rest, h => by
    have hlt := keysSorted_head_lt e rest h
    have htail : keysSorted rest = true := by
      cases rest with
      | nil => rfl
      | cons e2 rest' =>
        unfold keysSorted at h
        rw [Bool.and_eq_true] at h
        exact h.2
    unfold keysNodupB
    rw [Bool.and_eq_true]
    refine ⟨?_, keysSorted_nodup rest htail⟩
    simp only [Bool.not_eq_true', List.any_eq_false]
    intro x hx
    have hlt2 := hlt x hx
    have hne : x.1 ≠ e.1 := by omega
    simp [hne]

/-- The cons-cons equation of keysSorted, stated for rewriting. -/
theorem keysSorted_cons_cons (e e2 : Nat × String)
    (rest : List (Nat × String)) :
    keysSorted (e :: e2 :: rest) =
      (decide (e.1 < e2.1) && keysSorted (e2 :: rest)) := by
  cases rest <;> rfl

/-- keysSorted of a cons, characterized. -/
theorem keysSorted_cons_iff (e : Nat × String) (L : List (Nat × String)) :
    keysSorted (e :: L) = true ↔
      (keysSorted L = true ∧ ∀ x ∈ L, e.1 < x.1) := by
  cases L with
  | nil => simp [keysSorted]
  | cons e2 rest =>
    rw [keysSorted_cons_cons, Bool.and_eq_true]
    constructor
    · rintro ⟨h1, h2⟩
      refine ⟨h2, ?_⟩
      intro x hx
      rcases List.mem_cons.mp hx with rfl | hx2
      · simpa using h1
      · have := keysSorted_head_lt e2 rest h2 x hx2
        have h1' : e.1 < e2.1 := by simpa using h1
        omega
    · rintro ⟨h1, h2⟩
      exact ⟨by simpa using h2 e2 (List.mem_cons_self e2 rest), h1⟩

/-- Everything filesInsert yields is an old entry or the new pair. -/
theorem filesInsert_mem :
    ∀ (files : List (Nat × String)) (k : Nat) (v : String),
      ∀ y ∈ filesInsert files k v, y ∈ files ∨ y = (k, v)
  | [], k, v, y, hy => by
    unfold filesInsert at hy
    simp only [List.mem_singleton] at hy
    exact Or.inr hy
  | e :: rest, k, v, y, hy => by
    unfold filesInsert at hy
    split at hy
    · rcases List.mem_cons.mp hy with rfl | hy2
      · exact Or.inr rfl
      · exact Or.inl hy2
    · split at hy
      · exact Or.inl hy
      · rcases List.mem_cons.mp hy with rfl | hy2
        · exact Or.inl (List.mem_cons_self y rest)
        · rcases filesInsert_mem rest k v y hy2 with h | h
          · exact Or.inl (List.mem_cons_of_mem e h)
          · exact Or.inr h

/-- filesInsert keeps the key order. -/
theorem filesInsert_sorted :
    ∀ (files : List (Nat × String)) (k : Nat) (v : String),
      keysSorted files = true → keysSorted (filesInsert files k v) = true
  | [], _, _, _ => rfl
  | e :: rest, k, v, h => by
    have hparts := (keysSorted_cons_iff e rest).mp h
    unfold filesInsert
    split
    · next hk =>
      rw [keysSorted_cons_iff]
      refine ⟨h, ?_⟩
      intro x hx
      rcases List.mem_cons.mp hx with rfl | hx2
      · simpa using hk
      · have := hparts.2 x hx2
        have hk' : k < e.1 := hk
        omega
    · split
      · exact h
      · next hk1 hk2 =>
        have hek : e.1 < k := by
          have h2 : k ≠ e.1 := by
            intro hkk
            exact hk2 (by simp [hkk])
          have h1 : ¬ k < e.1 := hk1
          omega
        rw [keysSorted_cons_iff]
        refine ⟨filesInsert_sorted rest k v hparts.1, ?_⟩
        intro y hy
        rcases filesInsert_mem rest k v y hy with hmem | rfl
        · exact hparts.2 y hmem
        · exact hek

/-- filesInsert keeps NUL-free paths when the new path is NUL-free. -/
theorem filesInsert_vals (files : List (Nat × String)) (k : Nat) (v : String)
    (h : files.all (fun kv => strOK kv.2) = true) (hv : strOK v = true) :
    (filesInsert files k v).all (fun kv => strOK kv.2) = true := by
  simp only [List.all_eq_true] at h ⊢
  intro y hy
  rcases filesInsert_mem files k v y hy with hmem | rfl
  · exact h y hmem
  · exact hv

/-- ModuleWF split into its six components. -/
theorem ModuleWF_parts (m : Module) :
    ModuleWF m = true ↔
      (keysSorted m.files_ = true ∧
       m.files_.all (fun kv => strOK kv.2) = true ∧
       rmSizesOK m.functions_ = true ∧
       m.functions_.entries.all (fun e => functionOK e.2.2) = true ∧
       m.public_symbols_.entries.all (fun e => strOK e.2.name) = true ∧
       sarrOK m.stack_info_ = true) := by
  unfold ModuleWF
  simp [Bool.and_eq_true, and_assoc]

/-- A successful ParseFile keeps the file map sorted with NUL-free
paths. -/
theorem ParseFile_WF (cs : List Char) (files files' : List (Nat × String))
    (hcs : charsOK cs = true)
    (hsort : keysSorted files = true)
    (hvals : files.all (fun kv => strOK kv.2) = true)
    (h : ParseFile cs files = some files') :
    keysSorted files' = true ∧ files'.all (fun kv => strOK kv.2) = true := by
  unfold ParseFile at h
  split at h
  · next t0 t1 heq =>
    simp only [] at h
    split at h
    · exact absurd h (by simp)
    · simp only [Option.some.injEq] at h
      subst h
      have ht1 : charsOK t1 = true :=
        tokenizeCS_charsOK cs 2 hcs t1 (by rw [heq]; simp)
      exact ⟨filesInsert_sorted files _ _ hsort,
        filesInsert_vals files _ _ hvals ht1⟩
  · exact absurd h (by simp)

/-- A successful ParseFunction yields a well-formed function. -/
theorem ParseFunction_OK (cs : List Char) (f : Function)
    (hcs : charsOK cs = true) (h : ParseFunction cs = some f) :
    functionOK f = true := by
  unfold ParseFunction at h
  split at h
  · next t0 t1 t2 t3 heq =>
    simp only [Option.some.injEq] at h
    subst h
    unfold functionOK
    rw [Bool.and_eq_true]
    exact ⟨tokenizeCS_charsOK cs 4 hcs t3 (by rw [heq]; simp), rfl⟩
  · exact absurd h (by simp)

/-- A successful ParsePublicSymbol keeps the symbol names NUL-free. -/
theorem ParsePublicSymbol_OK (cs : List Char)
    (pubs pubs' : AddressMap PublicSymbol)
    (hcs : charsOK cs = true)
    (hvals : pubs.entries.all (fun e => strOK e.2.name) = true)
    (h : ParsePublicSymbol cs pubs = some pubs') :
    pubs'.entries.all (fun e => strOK e.2.name) = true := by
  unfold ParsePublicSymbol at h
  split at h
  · next t0 t1 t2 heq =>
    simp only [] at h
    split at h
    · simp only [Option.some.injEq] at h
      subst h
      exact hvals
    · cases hst : (pubs.Store (hexVal t0)
        ⟨String.mk t2, hexVal t0, hexVal t1 % U32MOD⟩) with
      | mk ok pubs2 =>
        rw [hst] at h
        split at h
        · simp only [Option.some.injEq] at h
          subst h
          have ht2 : charsOK t2 = true :=
            tokenizeCS_charsOK cs 3 hcs t2 (by rw [heq]; simp)
          have := amStore_valsOK (fun p => strOK p.name) pubs (hexVal t0)
            ⟨String.mk t2, hexVal t0, hexVal t1 % U32MOD⟩ hvals ht2
          rw [hst] at this
          exact this
        · exact absurd h (by simp)
  · exact absurd h (by simp)

/-- A successful ParseStackInfo keeps all slots well-formed. -/
theorem ParseStackInfo_WF (cs : List Char) (sarr sarr' : StackInfoArray)
    (hcs : charsOK cs = true) (hok : sarrOK sarr = true)
    (h : ParseStackInfo cs sarr = some sarr') : sarrOK sarr' = true := by
  unfold ParseStackInfo at h
  split at h
  · next t0 t1 t2 t3 t4 t5 t6 t7 t8 t9 t10 t11 heq =>
    simp only [] at h
    split at h
    · exact absurd h (by simp)
    · split at h
      · exact absurd h (by simp)
      · have ht11 : charsOK t11 = true :=
          tokenizeCS_charsOK cs 12 hcs t11 (by rw [heq]; simp)
        have hprog : sfiOK ⟨VALID_ALL, hexVal t4 % U32MOD, hexVal t5 % U32MOD,
            hexVal t6 % U32MOD, hexVal t7 % U32MOD, hexVal t8 % U32MOD,
            hexVal t9 % U32MOD,
            (if hexVal t10 ≠ 0 then false else hexVal t11 % U32MOD ≠ 0),
            (if hexVal t10 ≠ 0 then String.mk t11 else "")⟩ = true := by
          unfold sfiOK
          split
          · exact ht11
          · rfl
        cases hsr : (sarr.get (hexVal t1)).StoreRange (hexVal t2) (hexVal t3)
            ⟨VALID_ALL, hexVal t4 % U32MOD, hexVal t5 % U32MOD,
             hexVal t6 % U32MOD, hexVal t7 % U32MOD, hexVal t8 % U32MOD,
             hexVal t9 % U32MOD,
             (if hexVal t10 ≠ 0 then false else hexVal t11 % U32MOD ≠ 0),
             (if hexVal t10 ≠ 0 then String.mk t11 else "")⟩ with
        | mk ok slot2 =>
          rw [hsr] at h
          simp only [Option.some.injEq] at h
          subst h
          refine sarrOK_set sarr (hexVal t1) slot2 hok ?_
          have := crmStoreRange_allB sfiOK (sarr.get (hexVal t1))
            (hexVal t2) (hexVal t3) _ (sarrOK_get sarr (hexVal t1) hok) hprog
          rw [hsr] at this
          exact this
  · exact absurd h (by simp)

/-- The parser-state invariant: the module is well-formed, as is the
current function a bare line record would extend. -/
def LoadStWF (st : LoadSt) : Bool :=
  ModuleWF st.m &&
  (match st.cur with
   | none => true
   | some (func, _) => functionOK func)

/-- One dispatcher step preserves the parser-state invariant. -/
theorem loadMapLine_WF (st st' : LoadSt) (l : String)
    (hl : strOK l = true) (hwf : LoadStWF st = true)
    (h : loadMapLine st l = some st') : LoadStWF st' = true := by
  unfold LoadStWF at hwf
  rw [Bool.and_eq_true] at hwf
  obtain ⟨hm, hcur⟩ := hwf
  rw [ModuleWF_parts] at hm
  obtain ⟨h1, h2, h3, h4, h5, h6⟩ := hm
  unfold loadMapLine at h
  split at h
  · -- FILE record
    split at h
    · next files' hp =>
      simp only [Option.some.injEq] at h
      subst h
      have hcs : charsOK (l.data.drop 5) = true :=
        charsOK_of_sublist (List.drop_sublist 5 l.data) hl
      have hres := ParseFile_WF _ _ _ hcs h1 h2 hp
      unfold LoadStWF
      rw [Bool.and_eq_true]
      refine ⟨?_, hcur⟩
      rw [ModuleWF_parts]
      exact ⟨hres.1, hres.2, h3, h4, h5, h6⟩
    · exact absurd h (by simp)
  split at h
  · -- STACK record
    split at h
    · next sarr' hp =>
      simp only [Option.some.injEq] at h
      subst h
      have hcs : charsOK (l.data.drop 6) = true :=
        charsOK_of_sublist (List.drop_sublist 6 l.data) hl
      have hres := ParseStackInfo_WF _ _ _ hcs h6 hp
      unfold LoadStWF
      rw [Bool.and_eq_true]
      refine ⟨?_, hcur⟩
      rw [ModuleWF_parts]
      exact ⟨h1, h2, h3, h4, h5, hres⟩
    · exact absurd h (by simp)
  split at h
  · -- FUNC record
    split at h
    · next func hp =>
      have hcs : charsOK (l.data.drop 5) = true :=
        charsOK_of_sublist (List.drop_sublist 5 l.data) hl
      have hfok := ParseFunction_OK _ _ hcs hp
      cases hst : st.m.functions_.StoreRange func.address func.size func with
      | mk stored functions' =>
        rw [hst] at h
        simp only [Option.some.injEq] at h
        subst h
        unfold LoadStWF
        rw [Bool.and_eq_true]
        constructor
        · rw [ModuleWF_parts]
          have hsz := StoreRange_sizesOK st.m.functions_
            func.address func.size func h3
          have hall := StoreRange_valsOK functionOK st.m.functions_
            func.address func.size func h4 hfok
          rw [hst] at hsz hall
          exact ⟨h1, h2, hsz, hall, h5, h6⟩
        · exact hfok
    · exact absurd h (by simp)
  split at h
  · -- PUBLIC record
    split at h
    · next publics' hp =>
      simp only [Option.some.injEq] at h
      subst h
      have hcs : charsOK (l.data.drop 7) = true :=
        charsOK_of_sublist (List.drop_sublist 7 l.data) hl
      have hres := ParsePublicSymbol_OK _ _ _ hcs h5 hp
      unfold LoadStWF
      rw [Bool.and_eq_true]
      constructor
      · rw [ModuleWF_parts]
        exact ⟨h1, h2, h3, h4, hres, h6⟩
      · rfl
    · exact absurd h (by simp)
  split at h
  · -- MODULE record: the state passes through unchanged
    simp only [Option.some.injEq] at h
    subst h
    unfold LoadStWF
    rw [Bool.and_eq_true]
    refine ⟨?_, hcur⟩
    rw [ModuleWF_parts]
    exact ⟨h1, h2, h3, h4, h5, h6⟩
  · -- bare line record
    split at h
    · exact absurd h (by simp)
    · next func stored hcureq =>
      rw [hcureq] at hcur
      have hfok : functionOK func = true := hcur
      unfold functionOK at hfok
      rw [Bool.and_eq_true] at hfok
      obtain ⟨hfn, hfl⟩ := hfok
      split at h
      · next line hp =>
        cases hsl : func.lines.StoreRange line.address line.size line with
        | mk ig lines' =>
          rw [hsl] at h
          simp only [Option.some.injEq] at h
          subst h
          have hfl' : rmSizesOK lines' = true := by
            have := StoreRange_sizesOK func.lines
              line.address line.size line hfl
            rw [hsl] at this
            exact this
          have hfok' : functionOK { func with lines := lines' } = true := by
            unfold functionOK
            rw [Bool.and_eq_true]
            exact ⟨hfn, hfl'⟩
          unfold LoadStWF
          rw [Bool.and_eq_true]
          constructor
          · rw [ModuleWF_parts]
            refine ⟨h1, h2, ?_, ?_, h5, h6⟩
            · cases stored with
              | false => simpa using h3
              | true =>
                simp only [if_true]
                exact updateVal_sizesOK st.m.functions_ func.address _ h3
            · cases stored with
              | false => simpa using h4
              | true =>
                simp only [if_true]
                exact updateVal_valsOK functionOK st.m.functions_
                  func.address _ h4 hfok'
          · exact hfok'
      · exact absurd h (by simp)

/-- The dispatcher fold preserves the parser-state invariant. -/
theorem loadMap_fold_WF :
    ∀ (lines : List String) (st st' : LoadSt),
      (∀ l ∈ lines, strOK l = true) → LoadStWF st = true →
      List.foldlM loadMapLine st lines = some st' → LoadStWF st' = true
  | [], st, st', _, hwf, h => by
    simp only [List.foldlM_nil] at h
    cases h
    exact hwf
  | l :: rest, st, st', hok, hwf, h => by
    rw [List.foldlM_cons] at h
    cases hstep : loadMapLine st l with
    | none => rw [hstep] at h; exact absurd h (by simp)
    | some st1 =>
      rw [hstep] at h
      simp only [Option.bind_eq_bind, Option.some_bind] at h
      exact loadMap_fold_WF rest st1 st'
        (fun x hx => hok x (List.mem_cons_of_mem l hx))
        (loadMapLine_WF st st1 l (hok l (List.mem_cons_self l rest)) hwf hstep)
        h

/-- A module LoadMap builds from NUL-free lines is well-formed. -/
theorem LoadMap_WF (lines : List String) (name : String) (m : Module)
    (hok : ∀ l ∈ lines, strOK l = true)
    (h : Module.LoadMap (some lines) (Module.empty name) = some m) :
    ModuleWF m = true := by
  replace h : Option.map LoadSt.m
      (List.foldlM loadMapLine { m := Module.empty name, cur := none } lines) =
        some m := h
  cases hf : List.foldlM loadMapLine
      { m := Module.empty name, cur := none } lines with
  | none => rw [hf] at h; exact absurd h (by simp)
  | some st' =>
    rw [hf] at h
    replace h : some st'.m = some m := h
    simp only [Option.some.injEq] at h
    have hwf0 : LoadStWF { m := Module.empty name, cur := none } = true := rfl
    have hend := loadMap_fold_WF lines _ st' hok hwf0 hf
    unfold LoadStWF at hend
    rw [Bool.and_eq_true] at hend
    rw [← h]
    exact hend.1

/-- Every pair a list's self-zip yields has equal components. -/
theorem mem_zip_self {α : Type} :
    ∀ (l : List α) (p : α × α), p ∈ l.zip l → p.1 = p.2
  | [], p, hp => by simp at hp
  | x :: rest, p, hp => by
    rw [List.zip_cons_cons] at hp
    rcases List.mem_cons.mp hp with rfl | hp2
    · rfl
    · exact mem_zip_self rest p hp2

/-- With pairwise-distinct keys, every entry is found back under its key. -/
theorem filesFind_self :
    ∀ (fs : List (Nat × String)), keysNodupB fs = true →
      ∀ kv ∈ fs, filesFind fs kv.1 = some kv.2
  | [], _, kv, hkv => by simp at hkv
  | e :: rest, h, kv, hkv => by
    unfold keysNodupB at h
    rw [Bool.and_eq_true] at h
    obtain ⟨hno, hrest⟩ := h
    rcases List.mem_cons.mp hkv with rfl | hkv2
    · unfold filesFind
      simp [List.find?_cons]
    · have hne : (e.1 == kv.1) = false := by
        by_contra hq
        rw [Bool.not_eq_false] at hq
        have heq : e.1 = kv.1 := by simpa using hq
        rw [Bool.not_eq_true', List.any_eq_false] at hno
        have h0 := hno kv hkv2
        simp [heq] at h0
      have hih := filesFind_self rest hrest kv hkv2
      unfold filesFind at hih ⊢
      simp only [List.find?_cons, hne]
      exact hih

/-- A well-formed module Equals any module carrying the same four compared
components, whatever that module's name (Equals never reads names). -/
theorem Module.Equals_self (m : Module) (hwf : ModuleWF m = true) (o : Module)
    (hf : o.files_ = m.files_) (hfn : o.functions_ = m.functions_)
    (hp : o.public_symbols_ = m.public_symbols_)
    (hs : o.stack_info_ = m.stack_info_) :
    Module.Equals m o = true := by
  rw [ModuleWF_parts] at hwf
  obtain ⟨h1, _, _, _, _, _⟩ := hwf
  unfold Module.Equals
  rw [hf, hfn, hp, hs]
  simp only [Bool.and_eq_true]
  refine ⟨⟨⟨⟨⟨⟨⟨?_, ?_⟩, ?_⟩, ?_⟩, ?_⟩, ?_⟩, ?_⟩, ?_⟩
  · rw [filesEquals_iff]
    exact ⟨rfl, filesFind_self m.files_ (keysSorted_nodup m.files_ h1)⟩
  · rw [rmEqualsWith_iff_pairs]
    refine ⟨rfl, ?_⟩
    intro pr hpr
    have hself := mem_zip_self m.functions_.entries pr hpr
    refine ⟨by rw [hself], by rw [hself], ?_⟩
    rw [funcEquals_iff, hself]
    exact ⟨rfl, rfl, rfl, rfl⟩
  · rw [amEqualsWith_iff_eq pubEq pubEq_iff]
  · rw [crmEqW_iff sfiEq sfiEq_iff]
  · rw [crmEqW_iff sfiEq sfiEq_iff]
  · rw [crmEqW_iff sfiEq sfiEq_iff]
  · rw [crmEqW_iff sfiEq sfiEq_iff]
  · rw [crmEqW_iff sfiEq sfiEq_iff]

/-- C1: for every sym file accepted by the parser (every successful LoadMap,
from NUL-free lines, as any lines read from a C-string buffer are),
deserializing the serialized form of the parsed module — into a fresh module
of any name, as ModuleRoundTripTest (part_000:1065-1102) does — succeeds and
yields a module structurally equal (Module::Equals, part_000:838-853) to the
parsed one.  The witness instantiates the empty sym file. -/
theorem C1_parse_serialize_roundtrip (lines : List String)
    (name name0 : String) (m : Module)
    (hok : ∀ l ∈ lines, strOK l = true)
    (hload : Module.LoadMap (some lines) (Module.empty name) = some m) :
    ∃ m', ModuleSerializer.Deserialize (ModuleSerializer.Serialize m)
            (Module.empty name0) = some m' ∧ Module.Equals m m' = true := by
  have hwf := LoadMap_WF lines name m hok hload
  exact ⟨_, Deserialize_Serialize m hwf (Module.empty name0),
    Module.Equals_self m hwf _ rfl rfl rfl rfl⟩

/-- C1 at the empty sym file: parsing no lines yields the empty module,
whose serialized form deserializes to an Equals module. -/
theorem C1_parse_serialize_roundtrip_witness :
    (∀ l ∈ ([] : List String), strOK l = true) ∧
    Module.LoadMap (some []) (Module.empty "a") = some (Module.empty "a") ∧
    ∃ m', ModuleSerializer.Deserialize
        (ModuleSerializer.Serialize (Module.empty "a"))
        (Module.empty "b") = some m' ∧
      Module.Equals (Module.empty "a") m' = true :=
  ⟨fun l hl => absurd hl (List.not_mem_nil l), rfl,
   C1_parse_serialize_roundtrip [] "a" "b" (Module.empty "a")
     (fun l hl => absurd hl (List.not_mem_nil l)) rfl⟩

end google_breakpad
